import Mathlib

/-!
The model `iaf_psc_exp_multisynapse`.

A shallow embedding of `models/iaf_psc_exp_multisynapse.cpp` (NEST): a leaky
integrate-and-fire neuron with exponential post-synaptic currents and an
arbitrary number of receptor ports.

Modelling conventions

* C++ `double` is an arbitrary linearly ordered field `α` (exact arithmetic; no
  rounding, no NaN, no infinities).  The definitions are computable for any
  computable instance (for example `ℚ`); statements that involve `std::exp` are
  instantiated at `ℝ` with `Real.exp`.
* `size_t` is `Nat`, `long` and `int` are `Int`.
* `std::vector< T >` is `List T`.  An index outside the vector is undefined
  behaviour in C++; here a read outside the list gives `0` and a write outside
  the list is lost.
* A member function that mutates its receiver and may throw returns the final
  receiver together with the outcome, so that the receiver as the exception
  leaves it stays visible.
* What `calibrate` takes from outside this file (the resolution, `std::exp`,
  `propagator_32`, the conversion from milliseconds to steps) is a field of
  `Kernel`; the minimal delay is an argument of `update`.
-/

namespace nest

/-! ## Status dictionary -/

/-- The entries of a status dictionary that this model reads.  An absent name is
`none`. -/
structure DictionaryDatum (α : Type) where
  E_L : Option α := none
  V_reset : Option α := none
  V_th : Option α := none
  I_e : Option α := none
  C_m : Option α := none
  tau_m : Option α := none
  t_ref : Option α := none
  tau_syn : Option (List α) := none
  V_m : Option α := none

/-- The C++ `updateValue< T >( d, name, var )`: when the name is present the
variable takes its value and the call returns `true`, otherwise the variable is
left alone and the call returns `false`.  The result is the pair of the returned
flag and the variable after the call. -/
def updateValue {β : Type} (entry : Option β) (var : β) : Bool × β :=
  match entry with
  | some x => (true, x)
  | none => (false, var)

/-- The seven `throw BadProperty( ... )` sites of `Parameters_::set`, in source
order. -/
inductive BadProperty where
  /-- Thrown with the text "Capacitance must be > 0." -/
  | capacitance
  /-- Thrown with the text "Membrane time constant must be strictly positive." -/
  | membrane_tau
  /-- Thrown with the text "The neuron has connections, therefore the number of
  ports cannot be reduced." -/
  | ports_reduced
  /-- Thrown with the text "All synaptic time constants must be strictly
  positive." -/
  | synapse_tau
  /-- Thrown with the text "Membrane and synapse time constant(s) must differ. See
  note in documentation." -/
  | tau_differ
  /-- Thrown with the text "Refractory time must not be negative." -/
  | refractory
  /-- Thrown with the text "Reset potential must be smaller than threshold." -/
  | reset_threshold
  deriving DecidableEq

/-! ## Parameters -/

/-- The model parameters, `iaf_psc_exp_multisynapse::Parameters_`. -/
structure Parameters_ (α : Type) where
  /-- Membrane time constant in ms. -/
  Tau_ : α
  /-- Membrane capacitance in pF. -/
  C_ : α
  /-- Refractory period in ms. -/
  t_ref_ : α
  /-- Resting potential in mV. -/
  E_L_ : α
  /-- Constant input current in pA. -/
  I_e_ : α
  /-- Reset value of the membrane potential, relative to `E_L_`. -/
  V_reset_ : α
  /-- Threshold, relative to `E_L_`. -/
  Theta_ : α
  /-- Number of receptor ports. -/
  num_of_receptors_ : Nat
  /-- True once a connection has been accepted. -/
  has_connections_ : Bool
  /-- Synaptic time constants in ms, one per port. -/
  tau_syn_ : List α
  /-- Port identifiers handed out to connections, filled by `calibrate`. -/
  receptor_types_ : List Int

variable {α : Type} [LinearOrderedField α]

/-- The default constructor `Parameters_::Parameters_()`. -/
def Parameters_.default : Parameters_ α :=
  { Tau_ := 10
    C_ := 250
    t_ref_ := 2
    E_L_ := -70
    I_e_ := 0
    V_reset_ := -70 - (-70)
    Theta_ := -55 - (-70)
    num_of_receptors_ := 0
    has_connections_ := false
    tau_syn_ := []
    receptor_types_ := [] }

/-- The whole dictionary written by `Parameters_::get`. -/
structure ParametersStatus (α : Type) where
  E_L : α
  I_e : α
  V_th : α
  V_reset : α
  C_m : α
  tau_m : α
  t_ref : α
  n_synapses : Nat
  has_connections : Bool
  tau_syn : List α

/-- The member function `Parameters_::get`. -/
def Parameters_.get (p : Parameters_ α) : ParametersStatus α :=
  { E_L := p.E_L_
    I_e := p.I_e_
    V_th := p.Theta_ + p.E_L_
    V_reset := p.V_reset_ + p.E_L_
    C_m := p.C_
    tau_m := p.Tau_
    t_ref := p.t_ref_
    n_synapses := p.num_of_receptors_
    has_connections := p.has_connections_
    tau_syn := p.tau_syn_ }

/-- The loop `for ( size_t i = 0; i < tau_tmp.size(); ++i )` of
`Parameters_::set`, run over the elements `tau_tmp[ i ], tau_tmp[ i + 1 ], ...`
that are still to be visited.  `tmp_size` is `tau_tmp.size()`, `syn_size` is
`tau_syn_.size()`.  The result is the exception thrown, if any. -/
def tau_syn_loop (tmp_size syn_size : Nat) (has_connections_ : Bool) (Tau_ : α) :
    List α → Option BadProperty
  | [] => none
  | x :: rest =>
    if tmp_size < syn_size && has_connections_ == true then
      some BadProperty.ports_reduced
    else if x ≤ 0 then
      some BadProperty.synapse_tau
    else if x = Tau_ then
      some BadProperty.tau_differ
    else
      tau_syn_loop tmp_size syn_size has_connections_ Tau_ rest

/-- The tail of `Parameters_::set`, from `if ( t_ref_ < 0. )` to the
`return delta_EL`. -/
def Parameters_.set_tail (p : Parameters_ α) (delta_EL : α) :
    Parameters_ α × Except BadProperty α :=
  if p.t_ref_ < 0 then
    (p, Except.error BadProperty.refractory)
  else if p.V_reset_ ≥ p.Theta_ then
    (p, Except.error BadProperty.reset_threshold)
  else
    (p, Except.ok delta_EL)

/-- The assignments at the head of `Parameters_::set`, up to and including
`updateValue< double >( d, names::t_ref, t_ref_ )`; none of them throws. -/
def Parameters_.set_head (p0 : Parameters_ α) (d : DictionaryDatum α) : Parameters_ α :=
  let p1 := { p0 with E_L_ := (updateValue d.E_L p0.E_L_).2 }
  let delta_EL := p1.E_L_ - p0.E_L_
  let r := updateValue d.V_reset p1.V_reset_
  let p2 :=
    if r.1 then { p1 with V_reset_ := r.2 - p1.E_L_ }
    else { p1 with V_reset_ := r.2 - delta_EL }
  let t := updateValue d.V_th p2.Theta_
  let p3 :=
    if t.1 then { p2 with Theta_ := t.2 - p2.E_L_ }
    else { p2 with Theta_ := t.2 - delta_EL }
  let p4 := { p3 with I_e_ := (updateValue d.I_e p3.I_e_).2 }
  let p5 := { p4 with C_ := (updateValue d.C_m p4.C_).2 }
  let p6 := { p5 with Tau_ := (updateValue d.tau_m p5.Tau_).2 }
  { p6 with t_ref_ := (updateValue d.t_ref p6.t_ref_).2 }

/-- The member function `Parameters_::set`.  The first component is the receiver
when the call ends, by `return` or by `throw`; the second is the returned
`delta_EL` or the exception. -/
def Parameters_.set (p0 : Parameters_ α) (d : DictionaryDatum α) :
    Parameters_ α × Except BadProperty α :=
  let ELold := p0.E_L_
  let p := p0.set_head d
  let delta_EL := p.E_L_ - ELold
  if p.C_ ≤ 0 then
    (p, Except.error BadProperty.capacitance)
  else if p.Tau_ ≤ 0 then
    (p, Except.error BadProperty.membrane_tau)
  else
    let u := updateValue d.tau_syn ([] : List α)
    if u.1 then
      let tau_tmp := u.2
      match tau_syn_loop tau_tmp.length p.tau_syn_.length p.has_connections_ p.Tau_ tau_tmp with
      | some e => (p, Except.error e)
      | none =>
        let q := { p with tau_syn_ := tau_tmp }
        let q := { q with num_of_receptors_ := q.tau_syn_.length }
        q.set_tail delta_EL
    else
      p.set_tail delta_EL

/-! ## State -/

/-- The state variables, `iaf_psc_exp_multisynapse::State_`. -/
structure State_ (α : Type) where
  /-- Synaptic DC input current, latched from the current buffer. -/
  I_const_ : α
  /-- Membrane potential, relative to `E_L_`. -/
  V_m_ : α
  /-- Sum of the synaptic currents seen by the last integrating step. -/
  current_ : α
  /-- Remaining refractory steps. -/
  refractory_steps_ : Int
  /-- Synaptic currents, one per port. -/
  i_syn_ : List α

/-- The default constructor `State_::State_()`.  The constructor does not
initialise `current_`; its starting value is the argument. -/
def State_.default (current0 : α) : State_ α :=
  { I_const_ := 0
    V_m_ := 0
    current_ := current0
    refractory_steps_ := 0
    i_syn_ := [] }

/-- What `State_::get` stores under `names::V_m`: `V_m_ + p.E_L_`. -/
def State_.get (s : State_ α) (p : Parameters_ α) : α := s.V_m_ + p.E_L_

/-- The member function `State_::set`. -/
def State_.set (s : State_ α) (d : DictionaryDatum α) (p : Parameters_ α) (delta_EL : α) :
    State_ α :=
  let r := updateValue d.V_m s.V_m_
  if r.1 then { s with V_m_ := r.2 - p.E_L_ }
  else { s with V_m_ := r.2 - delta_EL }

/-! ## Internal variables, buffers, node -/

/-- The internal variables, `iaf_psc_exp_multisynapse::Variables_`, filled by
`calibrate`. -/
structure Variables_ (α : Type) where
  /-- Decay of each synaptic current over one step. -/
  P11_syn_ : List α
  /-- Contribution of each synaptic current to the membrane potential. -/
  P21_syn_ : List α
  /-- Contribution of a constant current to the membrane potential. -/
  P20_ : α
  /-- Decay of the membrane potential over one step. -/
  P22_ : α
  /-- Refractory period in steps. -/
  RefractoryCounts_ : Int

/-- Modelled from the spec: the delayed-value buffer (`RingBuffer` of the
kernel, whose code is not in this file).  A value is staged at a step offset by
`add_value`, which accumulates, and `get_value` returns the value staged for a
step and consumes it.  The storage is a total map from offsets to values; its
size and the wrap-around of offsets are not modelled. -/
structure RingBuffer (α : Type) where
  buffer_ : Int → α

/-- An empty buffer: nothing is staged at any offset. -/
def RingBuffer.clear : RingBuffer α := { buffer_ := fun _ => 0 }

/-- Modelled from the spec: `add_value( offs, v )` adds `v` to what is staged
at `offs`. -/
def RingBuffer.add_value (b : RingBuffer α) (offs : Int) (v : α) : RingBuffer α :=
  { buffer_ := fun k => if k = offs then b.buffer_ k + v else b.buffer_ k }

/-- Modelled from the spec: `get_value( offs )` returns what is staged at `offs`
and leaves `0` there. -/
def RingBuffer.get_value (b : RingBuffer α) (offs : Int) : α × RingBuffer α :=
  (b.buffer_ offs, { buffer_ := fun k => if k = offs then 0 else b.buffer_ k })

/-- Modelled from the spec: `resize()` adapts the storage to the delays of the
kernel; the staged values as a map of offsets are kept. -/
def RingBuffer.resize (b : RingBuffer α) : RingBuffer α := b

/-- The buffers, `iaf_psc_exp_multisynapse::Buffers_`.  The logger is the list
of the records it has been handed, oldest first: the step and the recordable
`V_m`. -/
structure Buffers_ (α : Type) where
  spikes_ : List (RingBuffer α)
  currents_ : RingBuffer α
  logger_ : List (Int × α)

/-- The node: parameters, state, internal variables and buffers, together with
what it hands to the kernel: the spike times given to `set_spiketime` and the
lags of the `SpikeEvent`s given to `send`, oldest first. -/
structure Node (α : Type) where
  P_ : Parameters_ α
  S_ : State_ α
  V_ : Variables_ α
  B_ : Buffers_ α
  spiketimes_ : List Int
  sent_ : List Int

/-- What `calibrate` takes from the kernel and the numerics library. -/
structure Kernel (α : Type) where
  /-- The resolution in ms, `Time::get_resolution().get_ms()`. -/
  h : α
  /-- The function `std::exp`. -/
  exp : α → α
  /-- The function `propagator_32( tau_syn, tau, C, h )` of libnestutil. -/
  propagator_32 : α → α → α → α → α
  /-- The conversion `Time( Time::ms( t ) ).get_steps()`. -/
  ms_to_steps : α → Int

/-- The recordable `get_V_m_`: `S_.V_m_ + P_.E_L_`. -/
def Node.get_V_m_ (n : Node α) : α := n.S_.V_m_ + n.P_.E_L_

/-- The member function `init_buffers_`. -/
def init_buffers_ (n : Node α) : Node α :=
  { n with
    B_ := { spikes_ := [], currents_ := RingBuffer.clear, logger_ := [] }
    spiketimes_ := [] }

/-- The C++ `std::vector::resize( k )`: the first `k` elements are kept and the
vector is filled up to length `k` with value-initialised elements. -/
def vector_resize {β : Type} (v : List β) (k : Nat) (fill : β) : List β :=
  v.take k ++ List.replicate (k - v.length) fill

/-! ## Calibration -/

/-- The loop `for ( size_t i = 0; i < P_.num_of_receptors_; i++ )` that writes
`P_.receptor_types_[ i ] = i + 1`; the first argument counts the iterations
left, the second is `i`. -/
def receptor_types_loop : Nat → Nat → List Int → List Int
  | 0, _, v => v
  | k + 1, i, v => receptor_types_loop k (i + 1) (v.set i ((i : Int) + 1))

/-- The second loop of `calibrate`, over `P11_syn_`, `P21_syn_` and
`B_.spikes_`; the first argument counts the iterations left, the second is
`i`. -/
def calibrate_loop (K : Kernel α) (P_ : Parameters_ α) :
    Nat → Nat → List α × List α × List (RingBuffer α) → List α × List α × List (RingBuffer α)
  | 0, _, st => st
  | k + 1, i, st =>
    calibrate_loop K P_ k (i + 1)
      (st.1.set i (K.exp (-K.h / P_.tau_syn_.getD i 0)),
       st.2.1.set i (K.propagator_32 (P_.tau_syn_.getD i 0) P_.Tau_ P_.C_ K.h),
       st.2.2.set i (st.2.2.getD i RingBuffer.clear).resize)

/-- The member function `calibrate`.  (`B_.logger_.init()` keeps the
records.) -/
def calibrate (K : Kernel α) (n : Node α) : Node α :=
  let h := K.h
  let num := n.P_.num_of_receptors_
  let receptor_types := receptor_types_loop num 0 (vector_resize n.P_.receptor_types_ num 0)
  let P11 := vector_resize n.V_.P11_syn_ num 0
  let P21 := vector_resize n.V_.P21_syn_ num 0
  let i_syn := vector_resize n.S_.i_syn_ num 0
  let spikes := vector_resize n.B_.spikes_ num RingBuffer.clear
  let P22 := K.exp (-h / n.P_.Tau_)
  let P20 := n.P_.Tau_ / n.P_.C_ * (1 - P22)
  let r := calibrate_loop K n.P_ num 0 (P11, P21, spikes)
  { n with
    P_ := { n.P_ with receptor_types_ := receptor_types }
    S_ := { n.S_ with i_syn_ := i_syn }
    V_ :=
      { P11_syn_ := r.1
        P21_syn_ := r.2.1
        P20_ := P20
        P22_ := P22
        RefractoryCounts_ := K.ms_to_steps n.P_.t_ref_ }
    B_ := { n.B_ with spikes_ := r.2.2 } }

/-! ## Update -/

/-- The loop `for ( size_t i = 0; i < P_.num_of_receptors_; i++ )` inside the
integrating branch: it accumulates `V_m_` (first component) and `current_`
(second component).  The first argument counts the iterations left, the second
is `i`. -/
def membrane_loop (P21_syn_ i_syn_ : List α) : Nat → Nat → α × α → α × α
  | 0, _, acc => acc
  | k + 1, i, acc =>
    membrane_loop P21_syn_ i_syn_ k (i + 1)
      (acc.1 + P21_syn_.getD i 0 * i_syn_.getD i 0, acc.2 + i_syn_.getD i 0)

/-- The membrane potential computed by the integrating branch, before the
threshold test. -/
def evolved_V_m (n : Node α) : α :=
  (membrane_loop n.V_.P21_syn_ n.S_.i_syn_ n.P_.num_of_receptors_ 0
    (n.S_.V_m_ * n.V_.P22_ + (n.P_.I_e_ + n.S_.I_const_) * n.V_.P20_, 0)).1

/-- The statement `if ( S_.refractory_steps_ == 0 ) ... else ...` of `update`. -/
def update_membrane (n : Node α) : Node α :=
  if n.S_.refractory_steps_ = 0 then
    let r := membrane_loop n.V_.P21_syn_ n.S_.i_syn_ n.P_.num_of_receptors_ 0
      (n.S_.V_m_ * n.V_.P22_ + (n.P_.I_e_ + n.S_.I_const_) * n.V_.P20_, 0)
    { n with S_ := { n.S_ with V_m_ := r.1, current_ := r.2 } }
  else
    { n with S_ := { n.S_ with refractory_steps_ := n.S_.refractory_steps_ - 1 } }

/-- The loop of `update` over the synaptic currents: decay, then collect the
spikes staged for `lag`.  The state is `S_.i_syn_` and `B_.spikes_`; the first
argument counts the iterations left, the second is `i`. -/
def synapse_loop (P11_syn_ : List α) (lag : Int) :
    Nat → Nat → List α × List (RingBuffer α) → List α × List (RingBuffer α)
  | 0, _, st => st
  | k + 1, i, st =>
    let decayed := st.1.set i (st.1.getD i 0 * P11_syn_.getD i 0)
    let g := (st.2.getD i RingBuffer.clear).get_value lag
    synapse_loop P11_syn_ lag k (i + 1)
      (decayed.set i (decayed.getD i 0 + g.1), st.2.set i g.2)

/-- The synaptic loop of `update` applied to the node. -/
def update_synapses (lag : Int) (n : Node α) : Node α :=
  let r := synapse_loop n.V_.P11_syn_ lag n.P_.num_of_receptors_ 0 (n.S_.i_syn_, n.B_.spikes_)
  { n with S_ := { n.S_ with i_syn_ := r.1 }, B_ := { n.B_ with spikes_ := r.2 } }

/-- The statement `if ( S_.V_m_ >= P_.Theta_ ) ...` of `update`. -/
def update_threshold (origin lag : Int) (n : Node α) : Node α :=
  if n.S_.V_m_ ≥ n.P_.Theta_ then
    { n with
      S_ := { n.S_ with refractory_steps_ := n.V_.RefractoryCounts_, V_m_ := n.P_.V_reset_ }
      spiketimes_ := n.spiketimes_ ++ [origin + lag + 1]
      sent_ := n.sent_ ++ [lag] }
  else
    n

/-- The statement `S_.I_const_ = B_.currents_.get_value( lag )` of `update`. -/
def update_current (lag : Int) (n : Node α) : Node α :=
  let g := n.B_.currents_.get_value lag
  { n with S_ := { n.S_ with I_const_ := g.1 }, B_ := { n.B_ with currents_ := g.2 } }

/-- The statement `B_.logger_.record_data( origin.get_steps() + lag )` of
`update`. -/
def update_log (origin lag : Int) (n : Node α) : Node α :=
  { n with B_ := { n.B_ with logger_ := n.B_.logger_ ++ [(origin + lag, n.get_V_m_)] } }

/-- One iteration of the loop of `update`, at step `lag`. -/
def update_step (origin lag : Int) (n : Node α) : Node α :=
  update_log origin lag
    (update_current lag (update_threshold origin lag (update_synapses lag (update_membrane n))))

/-- The loop `for ( long lag = from; lag < to; ++lag )` of `update`; the first
argument counts the iterations left, the second is `lag`. -/
def update_loop (origin : Int) : Nat → Int → Node α → Node α
  | 0, _, n => n
  | k + 1, lag, n => update_loop origin k (lag + 1) (update_step origin lag n)

/-- The member function `update( origin, from, to )`; `none` when one of the two
assertions at its entry fails.  `min_delay` is the value of
`kernel().connection_manager.get_min_delay()`; the type `delay` of the kernel is
`long`, so the cast `( delay ) from` keeps the value and the sign of `from`. -/
def update (min_delay origin from_ to_ : Int) (n : Node α) : Option (Node α) :=
  if to_ ≥ 0 ∧ from_ < min_delay then
    if from_ < to_ then
      some (update_loop origin (to_ - from_).toNat from_ n)
    else
      none
  else
    none

/-! ## Connection handshake and event handlers -/

/-- The member function `handles_test_event( SpikeEvent&, rport )`: the node
after the call and the returned port, or `none` for the exception
`IncompatibleReceptorType`. -/
def handles_test_event (n : Node α) (receptor_type : Int) : Node α × Option Int :=
  if receptor_type ≤ 0 ∨ receptor_type > (n.P_.num_of_receptors_ : Int) then
    (n, none)
  else
    ({ n with P_ := { n.P_ with has_connections_ := true } }, some receptor_type)

/-- What `handle( SpikeEvent& )` reads from the event. -/
structure SpikeEvent (α : Type) where
  rport : Int
  delay : Int
  /-- The value of `e.get_rel_delivery_steps( slice_origin )`. -/
  rel_delivery_steps : Int
  weight : α
  multiplicity : Int

/-- The member function `handle( SpikeEvent& )`; `none` when the assertion on the
delay fails. -/
def handle_spike (n : Node α) (e : SpikeEvent α) : Option (Node α) :=
  if e.delay > 0 then
    let i := (e.rport - 1).toNat
    some { n with
      B_ := { n.B_ with
        spikes_ := n.B_.spikes_.set i
          ((n.B_.spikes_.getD i RingBuffer.clear).add_value e.rel_delivery_steps
            (e.weight * (e.multiplicity : α))) } }
  else
    none

/-- What `handle( CurrentEvent& )` reads from the event. -/
structure CurrentEvent (α : Type) where
  delay : Int
  rel_delivery_steps : Int
  current : α
  weight : α

/-- The member function `handle( CurrentEvent& )`; `none` when the assertion on
the delay fails. -/
def handle_current (n : Node α) (e : CurrentEvent α) : Option (Node α) :=
  if e.delay > 0 then
    let I := e.current
    let w := e.weight
    some { n with
      B_ := { n.B_ with currents_ := n.B_.currents_.add_value e.rel_delivery_steps (w * I) } }
  else
    none

/-- The node as its default constructor leaves it (`P_()`, `S_()`), with empty
buffers and nothing calibrated yet. -/
def Node.default (current0 : α) : Node α :=
  { P_ := Parameters_.default
    S_ := State_.default current0
    V_ := { P11_syn_ := [], P21_syn_ := [], P20_ := 0, P22_ := 0, RefractoryCounts_ := 0 }
    B_ := { spikes_ := [], currents_ := RingBuffer.clear, logger_ := [] }
    spiketimes_ := []
    sent_ := [] }

/-! ## Predicates and fixtures used by the statements -/

/-- Nothing is staged in any buffer of the node. -/
def Node.buffers_empty (n : Node α) : Prop :=
  (∀ j x, (n.B_.spikes_.getD j RingBuffer.clear).buffer_ x = 0) ∧
    ∀ x, n.B_.currents_.buffer_ x = 0

/-- The node is at rest: zero potential, zero synaptic currents, zero latched
current, not refractory. -/
def Node.at_rest (n : Node α) : Prop :=
  n.S_.V_m_ = 0 ∧ (∀ j, n.S_.i_syn_.getD j 0 = 0) ∧ n.S_.I_const_ = 0 ∧
    n.S_.refractory_steps_ = 0

/-- A node as constructed, with the given parameters. -/
def Node.with_parameters (p : Parameters_ α) (current0 : α) : Node α :=
  { (Node.default current0 : Node α) with P_ := p }

/-- Modelled from the spec: a kernel with resolution 0.1 ms in which
`propagator_32` is the analytic propagator of the synaptic current into the
membrane potential,
`tau_syn * tau / ( C * ( tau - tau_syn ) ) * ( exp( -h / tau ) - exp( -h / tau_syn ) )`,
and the conversion to steps rounds `t / h`. -/
def exact_kernel [FloorRing α] (exp : α → α) : Kernel α :=
  { h := 1 / 10
    exp := exp
    propagator_32 := fun tau_syn tau C h =>
      tau_syn * tau / (C * (tau - tau_syn)) * (exp (-h / tau) - exp (-h / tau_syn))
    ms_to_steps := fun t => round (t / (1 / 10)) }

/-- A node over the rationals with the default parameters and no port, a
potential of 20 mV above rest, and a table with 20 refractory steps. -/
def hot_node : Node ℚ :=
  { (Node.default 0 : Node ℚ) with
    S_ := { (State_.default 0 : State_ ℚ) with V_m_ := 20 }
    V_ :=
      { P11_syn_ := [], P21_syn_ := [], P20_ := 1 / 2500, P22_ := 99 / 100
        RefractoryCounts_ := 20 } }

/-- A node over the rationals with the default parameters and no port, at rest,
with empty buffers, and a table with 20 refractory steps. -/
def resting_node : Node ℚ :=
  { (Node.default 0 : Node ℚ) with
    V_ :=
      { P11_syn_ := [], P21_syn_ := [], P20_ := 1 / 2500, P22_ := 99 / 100
        RefractoryCounts_ := 20 } }

/-- The default parameters with one port of 2 ms, as `Parameters_::set` with
`tau_syn = [2]` leaves them. -/
def one_port : Parameters_ α :=
  { (Parameters_.default : Parameters_ α) with tau_syn_ := [2], num_of_receptors_ := 1 }

/-- The default parameters with a threshold 10 mV below the resting potential
and a reset potential 20 mV below it, as `Parameters_::set` with `V_th = -80`
and `V_reset = -90` leaves them. -/
def low_threshold : Parameters_ α :=
  { (Parameters_.default : Parameters_ α) with Theta_ := -10, V_reset_ := -20 }

/-- The receiver with the new synaptic time constants stored (the two
assignments that follow the loop). -/
def Parameters_.with_tau_syn (q : Parameters_ α) (tau_tmp : List α) : Parameters_ α :=
  { q with tau_syn_ := tau_tmp, num_of_receptors_ := tau_tmp.length }

/-- The default parameters over the rationals. -/
def default_parameters : Parameters_ ℚ := Parameters_.default

/-- One port with time constant 2 ms that a connection has been made to: the
default parameters after `set` with `tau_syn = [2]` and `handles_test_event`
on port 1. -/
def one_port_connected : Parameters_ ℚ :=
  { (Parameters_.default : Parameters_ ℚ) with
    tau_syn_ := [2], num_of_receptors_ := 1, has_connections_ := true }

/-- The runs of a node: what is reached from `start` by iterations of the loop
of `update`, at any origin and lag, by the two event handlers and by further
calls of `calibrate` in between.  No step changes the parameters that `set`
writes. -/
inductive Run (start : Node α) : Node α → Prop
  | init : Run start start
  | step (origin lag : Int) (n : Node α) : Run start n → Run start (update_step origin lag n)
  | recalibrate (K : Kernel α) (n : Node α) : Run start n → Run start (calibrate K n)
  | spike (e : SpikeEvent α) (n m : Node α) :
      Run start n → handle_spike n e = some m → Run start m
  | current (e : CurrentEvent α) (n m : Node α) :
      Run start n → handle_current n e = some m → Run start m

/-- The sum `P21_syn_[ 0 ] * i_syn_[ 0 ] + ... ` over the ports of the node, with
the synaptic currents that the node holds. -/
def synaptic_drive (n : Node α) : α :=
  Finset.sum (Finset.range n.P_.num_of_receptors_)
    (fun c => n.V_.P21_syn_.getD c 0 * n.S_.i_syn_.getD c 0)

/-- A node over the rationals with one port of 2 ms, sized as `calibrate` sizes
it, with a synaptic current of 8 pA, a latched current of 100 pA, and 3 pA staged
on the port for step 0. -/
def driven_node : Node ℚ :=
  { (Node.default 0 : Node ℚ) with
    P_ := one_port
    S_ := { (State_.default 0 : State_ ℚ) with i_syn_ := [8], I_const_ := 100 }
    V_ :=
      { P11_syn_ := [19 / 20], P21_syn_ := [1 / 2500], P20_ := 1 / 2500, P22_ := 99 / 100
        RefractoryCounts_ := 20 }
    B_ :=
      { spikes_ := [RingBuffer.add_value RingBuffer.clear 0 3]
        currents_ := RingBuffer.clear
        logger_ := [] } }

/-! ## Lemmas on `Parameters_::set` -/

section set_lemmas

variable (p : Parameters_ α) (d : DictionaryDatum α)

theorem set_head_E_L : (p.set_head d).E_L_ = d.E_L.getD p.E_L_ := by
  cases hE : d.E_L <;> cases hr : d.V_reset <;> cases ht : d.V_th <;>
    simp [Parameters_.set_head, updateValue, hE, hr, ht]

theorem set_head_V_reset :
    (p.set_head d).V_reset_ =
      match d.V_reset with
      | some v => v - (p.set_head d).E_L_
      | none => p.V_reset_ - ((p.set_head d).E_L_ - p.E_L_) := by
  cases hE : d.E_L <;> cases hr : d.V_reset <;> cases ht : d.V_th <;>
    simp [Parameters_.set_head, updateValue, hE, hr, ht]

theorem set_head_Theta :
    (p.set_head d).Theta_ =
      match d.V_th with
      | some v => v - (p.set_head d).E_L_
      | none => p.Theta_ - ((p.set_head d).E_L_ - p.E_L_) := by
  cases hE : d.E_L <;> cases hr : d.V_reset <;> cases ht : d.V_th <;>
    simp [Parameters_.set_head, updateValue, hE, hr, ht]

theorem set_head_I_e : (p.set_head d).I_e_ = d.I_e.getD p.I_e_ := by
  cases hI : d.I_e <;> cases hr : d.V_reset <;> cases ht : d.V_th <;>
    simp [Parameters_.set_head, updateValue, hI, hr, ht]

theorem set_head_C : (p.set_head d).C_ = d.C_m.getD p.C_ := by
  cases hC : d.C_m <;> cases hr : d.V_reset <;> cases ht : d.V_th <;>
    simp [Parameters_.set_head, updateValue, hC, hr, ht]

theorem set_head_Tau : (p.set_head d).Tau_ = d.tau_m.getD p.Tau_ := by
  cases hT : d.tau_m <;> cases hr : d.V_reset <;> cases ht : d.V_th <;>
    simp [Parameters_.set_head, updateValue, hT, hr, ht]

theorem set_head_t_ref : (p.set_head d).t_ref_ = d.t_ref.getD p.t_ref_ := by
  cases hT : d.t_ref <;> cases hr : d.V_reset <;> cases ht : d.V_th <;>
    simp [Parameters_.set_head, updateValue, hT, hr, ht]

theorem set_head_frame :
    (p.set_head d).tau_syn_ = p.tau_syn_ ∧
      (p.set_head d).num_of_receptors_ = p.num_of_receptors_ ∧
      (p.set_head d).has_connections_ = p.has_connections_ ∧
      (p.set_head d).receptor_types_ = p.receptor_types_ := by
  cases hr : d.V_reset <;> cases ht : d.V_th <;>
    simp [Parameters_.set_head, updateValue, hr, ht]

theorem set_tail_fst (q : Parameters_ α) (x : α) : (q.set_tail x).1 = q := by
  unfold Parameters_.set_tail
  split_ifs <;> rfl

theorem set_tail_ok_iff (q : Parameters_ α) (x r : α) :
    (q.set_tail x).2 = Except.ok r ↔ 0 ≤ q.t_ref_ ∧ q.V_reset_ < q.Theta_ ∧ r = x := by
  unfold Parameters_.set_tail
  split_ifs with h1 h2
  · simp [h1]
  · simp only [reduceCtorEq, false_iff, not_and]
    intro _ h3
    exact absurd h2 (not_le.mpr h3)
  · simp only [Except.ok.injEq]
    constructor
    · intro h
      exact ⟨not_lt.mp h1, not_le.mp h2, h.symm⟩
    · intro h
      exact h.2.2.symm

theorem set_tail_error (q : Parameters_ α) (x : α) (e : BadProperty)
    (h : (q.set_tail x).2 = Except.error e) :
    e = BadProperty.refractory ∨ e = BadProperty.reset_threshold := by
  unfold Parameters_.set_tail at h
  split_ifs at h <;> simp_all

/-- How a call of `Parameters_::set` ends when the dictionary does not name
`tau_syn`. -/
theorem set_of_tau_syn_none (h : d.tau_syn = none) :
    p.set d =
      if (p.set_head d).C_ ≤ 0 then (p.set_head d, Except.error BadProperty.capacitance)
      else if (p.set_head d).Tau_ ≤ 0 then (p.set_head d, Except.error BadProperty.membrane_tau)
      else (p.set_head d).set_tail ((p.set_head d).E_L_ - p.E_L_) := by
  simp [Parameters_.set, updateValue, h]

/-- How a call of `Parameters_::set` ends when the dictionary names `tau_syn`. -/
theorem set_of_tau_syn_some (l : List α) (h : d.tau_syn = some l) :
    p.set d =
      if (p.set_head d).C_ ≤ 0 then (p.set_head d, Except.error BadProperty.capacitance)
      else if (p.set_head d).Tau_ ≤ 0 then (p.set_head d, Except.error BadProperty.membrane_tau)
      else
        match tau_syn_loop l.length p.tau_syn_.length p.has_connections_ (p.set_head d).Tau_ l with
        | some e => (p.set_head d, Except.error e)
        | none => ((p.set_head d).with_tau_syn l).set_tail ((p.set_head d).E_L_ - p.E_L_) := by
  simp only [Parameters_.set, updateValue, h, if_true, (set_head_frame p d).1,
    (set_head_frame p d).2.2.1, Parameters_.with_tau_syn]

end set_lemmas

section set_claims

theorem tau_syn_loop_none (a b : Nat) (hc : Bool) (T : α) (l : List α)
    (h : tau_syn_loop a b hc T l = none) : ∀ x ∈ l, 0 < x ∧ x ≠ T := by
  induction l with
  | nil => simp
  | cons y ys ih =>
    unfold tau_syn_loop at h
    split_ifs at h with h1 h2 h3
    intro x hx
    rcases List.mem_cons.mp hx with rfl | hx
    · exact ⟨not_le.mp h2, h3⟩
    · exact ih h x hx

theorem tau_syn_loop_shrink (a b : Nat) (T : α) (x : α) (l : List α) (hab : a < b) :
    tau_syn_loop a b true T (x :: l) = some BadProperty.ports_reduced := by
  simp [tau_syn_loop, hab]

/-- C1, as stated, fails: `Parameters_::set` on the default parameters with
`C_m = -1` throws "Capacitance must be > 0." and the receiver keeps the
capacitance `-1`, not the `250` it had before the call. -/
theorem set_failure_not_rolled_back :
    (default_parameters.set { C_m := some (-1) }).2 = Except.error BadProperty.capacitance ∧
      (default_parameters.set { C_m := some (-1) }).1.C_ = -1 ∧
      default_parameters.C_ = 250 := by
  refine ⟨?_, ?_, ?_⟩ <;>
    norm_num [default_parameters, Parameters_.default, Parameters_.set, Parameters_.set_head,
      updateValue]

/-- C1, amended: when `Parameters_::set` throws, the receiver is left as the
assignments made before the throw have it.  `has_connections_` is unchanged;
a scalar parameter that the dictionary does not name is unchanged (for
`V_reset_` and `Theta_`, which are stored relative to `E_L_`: when the
dictionary names neither them nor `E_L`); `tau_syn_` and `num_of_receptors_` are
unchanged when the dictionary does not name `tau_syn`, and also when it does
unless the exception is one of the last two (refractory time, reset against
threshold). -/
theorem set_failure_frame (p : Parameters_ α) (d : DictionaryDatum α) (e : BadProperty)
    (h : (p.set d).2 = Except.error e) :
    (p.set d).1.has_connections_ = p.has_connections_ ∧
      (d.E_L = none → (p.set d).1.E_L_ = p.E_L_) ∧
      (d.E_L = none → d.V_reset = none → (p.set d).1.V_reset_ = p.V_reset_) ∧
      (d.E_L = none → d.V_th = none → (p.set d).1.Theta_ = p.Theta_) ∧
      (d.I_e = none → (p.set d).1.I_e_ = p.I_e_) ∧
      (d.C_m = none → (p.set d).1.C_ = p.C_) ∧
      (d.tau_m = none → (p.set d).1.Tau_ = p.Tau_) ∧
      (d.t_ref = none → (p.set d).1.t_ref_ = p.t_ref_) ∧
      (d.tau_syn = none ∨ (e ≠ BadProperty.refractory ∧ e ≠ BadProperty.reset_threshold) →
        (p.set d).1.tau_syn_ = p.tau_syn_ ∧
          (p.set d).1.num_of_receptors_ = p.num_of_receptors_) := by
  have hE := set_head_E_L p d
  have hR := set_head_V_reset p d
  have hT := set_head_Theta p d
  have hI := set_head_I_e p d
  have hC := set_head_C p d
  have hM := set_head_Tau p d
  have hF := set_head_t_ref p d
  obtain ⟨f1, f2, f3, -⟩ := set_head_frame p d
  -- the receiver is the head, or the head with the new time constants
  have key : (p.set d).1 = p.set_head d ∨
      (∃ l, d.tau_syn = some l ∧ (p.set d).1 = (p.set_head d).with_tau_syn l ∧
        (e = BadProperty.refractory ∨ e = BadProperty.reset_threshold)) := by
    cases hs : d.tau_syn with
    | none =>
      rw [set_of_tau_syn_none p d hs]
      split_ifs
      · exact Or.inl rfl
      · exact Or.inl rfl
      · exact Or.inl (set_tail_fst _ _)
    | some l =>
      rw [set_of_tau_syn_some p d l hs] at h ⊢
      split_ifs at h ⊢
      · exact Or.inl rfl
      · exact Or.inl rfl
      · split at h
        · exact Or.inl rfl
        · exact Or.inr ⟨l, rfl, set_tail_fst _ _, set_tail_error _ _ _ h⟩
  rcases key with hk | ⟨l, hl, hk, he⟩
  · rw [hk]
    refine ⟨f3, ?_, ?_, ?_, ?_, ?_, ?_, ?_, ?_⟩
    · intro h1; simp [hE, h1]
    · intro h1 h2; rw [hR, hE]; simp [h1, h2]
    · intro h1 h2; rw [hT, hE]; simp [h1, h2]
    · intro h1; simp [hI, h1]
    · intro h1; simp [hC, h1]
    · intro h1; simp [hM, h1]
    · intro h1; simp [hF, h1]
    · intro _; exact ⟨f1, f2⟩
  · rw [hk]
    refine ⟨f3, ?_, ?_, ?_, ?_, ?_, ?_, ?_, ?_⟩
    · intro h1; simp [Parameters_.with_tau_syn, hE, h1]
    · intro h1 h2
      show (p.set_head d).V_reset_ = _
      rw [hR, hE]; simp [h1, h2]
    · intro h1 h2
      show (p.set_head d).Theta_ = _
      rw [hT, hE]; simp [h1, h2]
    · intro h1; simp [Parameters_.with_tau_syn, hI, h1]
    · intro h1; simp [Parameters_.with_tau_syn, hC, h1]
    · intro h1; simp [Parameters_.with_tau_syn, hM, h1]
    · intro h1; simp [Parameters_.with_tau_syn, hF, h1]
    · rintro (h1 | ⟨h1, h2⟩)
      · rw [hl] at h1; exact absurd h1 (by simp)
      · rcases he with he | he
        · exact absurd he h1
        · exact absurd he h2

/-- The frame of C1 at a failing call: the default parameters with a dictionary
that names a valid `tau_syn` and a negative `t_ref`. -/
theorem set_failure_frame_witness :
    (default_parameters.set { tau_syn := some [2], t_ref := some (-1) }).2 =
        Except.error BadProperty.refractory ∧
      (default_parameters.set { tau_syn := some [2], t_ref := some (-1) }).1.has_connections_ =
        default_parameters.has_connections_ ∧
      (default_parameters.set { tau_syn := some [2], t_ref := some (-1) }).1.C_ =
        default_parameters.C_ :=
  have h : (default_parameters.set { tau_syn := some [2], t_ref := some (-1) }).2 =
      Except.error BadProperty.refractory := by
    norm_num [default_parameters, Parameters_.default, Parameters_.set, Parameters_.set_head,
      Parameters_.set_tail, updateValue, tau_syn_loop]
  ⟨h, (set_failure_frame _ _ _ h).1, (set_failure_frame _ _ _ h).2.2.2.2.2.1 rfl⟩

end set_claims

section set_claims_2

/-- The inversion of a successful call of `Parameters_::set`: all five checks on
the scalars passed, the returned value is the shift of `E_L_`, and the receiver
is the head, with the new time constants when the dictionary names them. -/
theorem set_ok_inv (p q : Parameters_ α) (d : DictionaryDatum α) (r : α)
    (h : p.set d = (q, Except.ok r)) :
    r = (p.set_head d).E_L_ - p.E_L_ ∧ 0 < (p.set_head d).C_ ∧ 0 < (p.set_head d).Tau_ ∧
      0 ≤ (p.set_head d).t_ref_ ∧ (p.set_head d).V_reset_ < (p.set_head d).Theta_ ∧
      ((d.tau_syn = none ∧ q = p.set_head d) ∨
        ∃ l, d.tau_syn = some l ∧ q = (p.set_head d).with_tau_syn l ∧
          tau_syn_loop l.length p.tau_syn_.length p.has_connections_ (p.set_head d).Tau_ l =
            none) := by
  cases hs : d.tau_syn with
  | none =>
    rw [set_of_tau_syn_none p d hs] at h
    split_ifs at h with h1 h2
    · simp at h
    · simp at h
    · have h3 := congrArg Prod.snd h
      have h4 := congrArg Prod.fst h
      simp only [set_tail_fst] at h4
      obtain ⟨a, b, c⟩ := (set_tail_ok_iff _ _ _).mp h3
      exact ⟨c, not_le.mp h1, not_le.mp h2, a, b, Or.inl ⟨rfl, h4.symm⟩⟩
  | some l =>
    rw [set_of_tau_syn_some p d l hs] at h
    split_ifs at h with h1 h2
    · simp at h
    · simp at h
    · split at h
      · simp at h
      · rename_i hloop
        have h3 := congrArg Prod.snd h
        have h4 := congrArg Prod.fst h
        simp only [set_tail_fst] at h4
        obtain ⟨a, b, c⟩ := (set_tail_ok_iff _ _ _).mp h3
        exact ⟨c, not_le.mp h1, not_le.mp h2, a, b, Or.inr ⟨l, rfl, h4.symm, hloop⟩⟩

/-- C2, the failing input: with one connected port, `Parameters_::set` with the
empty `tau_syn` returns normally and stores zero ports, because the check
against shrinking sits inside the loop over the new time constants, which has
no iteration; port 1, accepted before, is refused afterwards. -/
theorem shrink_to_empty_accepted :
    ((Parameters_.default : Parameters_ ℚ).set { tau_syn := some [2] }).2 = Except.ok 0 ∧
      handles_test_event
          { (Node.default 0 : Node ℚ) with
            P_ := ((Parameters_.default : Parameters_ ℚ).set { tau_syn := some [2] }).1 } 1 =
        ({ (Node.default 0 : Node ℚ) with P_ := one_port_connected }, some 1) ∧
      (one_port_connected.set { tau_syn := some [] }).2 = Except.ok 0 ∧
      (one_port_connected.set { tau_syn := some [] }).1.num_of_receptors_ = 0 ∧
      (one_port_connected.set { tau_syn := some [] }).1.tau_syn_ = [] ∧
      (one_port_connected.set { tau_syn := some [] }).1.has_connections_ = true ∧
      (handles_test_event
          { (Node.default 0 : Node ℚ) with
            P_ := (one_port_connected.set { tau_syn := some [] }).1 } 1).2 = none := by
  refine ⟨?_, ?_, ?_, ?_, ?_, ?_, ?_⟩ <;>
    norm_num [one_port_connected, Parameters_.default, Parameters_.set, Parameters_.set_head,
      Parameters_.set_tail, updateValue, tau_syn_loop, handles_test_event, Node.default]

/-- The part of C2 that the code does enforce: with connections, a new
`tau_syn` that is shorter than the current one and not empty makes
`Parameters_::set` throw, and the ports are kept. -/
theorem shrink_nonempty_rejected (p : Parameters_ α) (d : DictionaryDatum α) (x : α)
    (l : List α) (hc : p.has_connections_ = true) (hd : d.tau_syn = some (x :: l))
    (hlen : (x :: l).length < p.tau_syn_.length) :
    (∃ e, (p.set d).2 = Except.error e) ∧ (p.set d).1.tau_syn_ = p.tau_syn_ ∧
      (p.set d).1.num_of_receptors_ = p.num_of_receptors_ := by
  obtain ⟨f1, f2, -, -⟩ := set_head_frame p d
  rw [set_of_tau_syn_some p d _ hd, hc, tau_syn_loop_shrink _ _ _ _ _ hlen]
  split_ifs
  · exact ⟨⟨_, rfl⟩, f1, f2⟩
  · exact ⟨⟨_, rfl⟩, f1, f2⟩
  · exact ⟨⟨_, rfl⟩, f1, f2⟩

/-- C3: after every call of `Parameters_::set` that returns, the stored reset
potential is strictly below the stored threshold. -/
theorem set_ok_reset_lt_threshold (p q : Parameters_ α) (d : DictionaryDatum α) (r : α)
    (h : p.set d = (q, Except.ok r)) : q.V_reset_ < q.Theta_ := by
  obtain ⟨-, -, -, -, hlt, hq⟩ := set_ok_inv p q d r h
  rcases hq with ⟨-, rfl⟩ | ⟨l, -, rfl, -⟩
  · exact hlt
  · exact hlt

/-- C3 at a call that returns: the default parameters with `V_th = -50`. -/
theorem set_ok_reset_lt_threshold_witness :
    default_parameters.set { V_th := some (-50) } =
        ({ default_parameters with Theta_ := 20 }, Except.ok 0) ∧
      ({ default_parameters with Theta_ := 20 } : Parameters_ ℚ).V_reset_ <
        ({ default_parameters with Theta_ := 20 } : Parameters_ ℚ).Theta_ :=
  have h : default_parameters.set { V_th := some (-50) } =
      ({ default_parameters with Theta_ := 20 }, Except.ok 0) := by
    norm_num [default_parameters, Parameters_.default, Parameters_.set, Parameters_.set_head,
      Parameters_.set_tail, updateValue]
  ⟨h, set_ok_reset_lt_threshold _ _ _ _ h⟩

/-- C4, the failing input: with `tau_syn_ = [2]` and `Tau_ = 10`, a dictionary
that names only `tau_m = 2` is accepted, and the stored synaptic time constant
then equals the membrane time constant; the comparison against `Tau_` is made
only for time constants that the dictionary brings. -/
theorem tau_m_alone_unchecked :
    ((Parameters_.default : Parameters_ ℚ).set { tau_syn := some [2] }) =
        (one_port, Except.ok 0) ∧
      (∀ x ∈ (one_port : Parameters_ ℚ).tau_syn_,
        0 < x ∧ x ≠ (one_port : Parameters_ ℚ).Tau_) ∧
      ((one_port : Parameters_ ℚ).set { tau_m := some 2 }).2 = Except.ok 0 ∧
      ((one_port : Parameters_ ℚ).set { tau_m := some 2 }).1.tau_syn_ = [2] ∧
      ((one_port : Parameters_ ℚ).set { tau_m := some 2 }).1.Tau_ = 2 := by
  refine ⟨?_, ?_, ?_, ?_, ?_⟩ <;>
    norm_num [one_port, Parameters_.default, Parameters_.set, Parameters_.set_head,
      Parameters_.set_tail, updateValue, tau_syn_loop]

/-- The part of C4 that the code does enforce: the time constants stay strictly
positive after every call that returns, and they stay different from `Tau_`
when the dictionary names `tau_syn` or does not name `tau_m`. -/
theorem set_ok_tau_syn (p q : Parameters_ α) (d : DictionaryDatum α) (r : α)
    (hp : ∀ x ∈ p.tau_syn_, 0 < x ∧ x ≠ p.Tau_) (h : p.set d = (q, Except.ok r)) :
    (∀ x ∈ q.tau_syn_, 0 < x) ∧
      (d.tau_syn ≠ none ∨ d.tau_m = none → ∀ x ∈ q.tau_syn_, x ≠ q.Tau_) := by
  obtain ⟨-, -, -, -, -, hq⟩ := set_ok_inv p q d r h
  obtain ⟨f1, -, -, -⟩ := set_head_frame p d
  have hM := set_head_Tau p d
  rcases hq with ⟨hn, rfl⟩ | ⟨l, hl, rfl, hloop⟩
  · rw [f1]
    refine ⟨fun x hx => (hp x hx).1, ?_⟩
    rintro (h1 | h1)
    · exact absurd hn h1
    · intro x hx
      rw [hM, h1]
      exact (hp x hx).2
  · have := tau_syn_loop_none _ _ _ _ _ hloop
    exact ⟨fun x hx => (this x hx).1, fun _ x hx => (this x hx).2⟩

/-- C5: for parameters that pass the checks, a dictionary that names only `E_L`,
moved by `Δ`, makes `Parameters_::set` return `Δ`; after `State_::set` with the
same dictionary and that `Δ`, the values of `V_th`, `V_reset` and `V_m` written
by the `get` functions are the ones written before. -/
theorem rebase_round_trip (p : Parameters_ α) (s : State_ α) (Δ : α)
    (hC : 0 < p.C_) (hTau : 0 < p.Tau_) (ht : 0 ≤ p.t_ref_) (hV : p.V_reset_ < p.Theta_) :
    (p.set { E_L := some (p.E_L_ + Δ) }).2 = Except.ok Δ ∧
      (p.set { E_L := some (p.E_L_ + Δ) }).1.get.V_th = p.get.V_th ∧
      (p.set { E_L := some (p.E_L_ + Δ) }).1.get.V_reset = p.get.V_reset ∧
      (s.set { E_L := some (p.E_L_ + Δ) } (p.set { E_L := some (p.E_L_ + Δ) }).1 Δ).get
          (p.set { E_L := some (p.E_L_ + Δ) }).1 = s.get p := by
  have h1 : ¬ p.C_ ≤ 0 := not_le.mpr hC
  have h2 : ¬ p.Tau_ ≤ 0 := not_le.mpr hTau
  have h3 : ¬ p.t_ref_ < 0 := not_lt.mpr ht
  have h4 : ¬ p.Theta_ ≤ p.V_reset_ := not_le.mpr hV
  simp [Parameters_.set, Parameters_.set_head, Parameters_.set_tail, updateValue, h1, h2, h3,
    h4, Parameters_.get, State_.set, State_.get]

/-- C5 at the default parameters and the default state, with the resting
potential moved by 5 mV. -/
theorem rebase_round_trip_witness :
    (default_parameters.set { E_L := some (default_parameters.E_L_ + 5) }).2 = Except.ok 5 ∧
      (default_parameters.set { E_L := some (default_parameters.E_L_ + 5) }).1.get.V_th =
        default_parameters.get.V_th :=
  have h := rebase_round_trip default_parameters (State_.default 0) 5
    (by norm_num [default_parameters, Parameters_.default])
    (by norm_num [default_parameters, Parameters_.default])
    (by norm_num [default_parameters, Parameters_.default])
    (by norm_num [default_parameters, Parameters_.default])
  ⟨h.1, h.2.1⟩

/-- C6: after every call of `Parameters_::set` that returns, the returned value
is the new `E_L_` minus the old one (so `0` when the dictionary does not name
`E_L`); a `V_th` or `V_reset` that the dictionary names is stored as the given
value minus the new `E_L_`, so that `get` writes the given value; one that the
dictionary does not name is stored as the old stored value minus the returned
shift. -/
theorem set_ok_relative (p q : Parameters_ α) (d : DictionaryDatum α) (r : α)
    (h : p.set d = (q, Except.ok r)) :
    r = q.E_L_ - p.E_L_ ∧ q.E_L_ = d.E_L.getD p.E_L_ ∧ (d.E_L = none → r = 0) ∧
      (∀ v, d.V_th = some v → q.Theta_ = v - q.E_L_ ∧ q.get.V_th = v) ∧
      (∀ v, d.V_reset = some v → q.V_reset_ = v - q.E_L_ ∧ q.get.V_reset = v) ∧
      (d.V_th = none → q.Theta_ = p.Theta_ - r) ∧
      (d.V_reset = none → q.V_reset_ = p.V_reset_ - r) := by
  obtain ⟨hr, -, -, -, -, hq⟩ := set_ok_inv p q d r h
  have hE := set_head_E_L p d
  have hR := set_head_V_reset p d
  have hT := set_head_Theta p d
  have hqE : q.E_L_ = (p.set_head d).E_L_ := by
    rcases hq with ⟨-, rfl⟩ | ⟨l, -, rfl, -⟩ <;> rfl
  have hqR : q.V_reset_ = (p.set_head d).V_reset_ := by
    rcases hq with ⟨-, rfl⟩ | ⟨l, -, rfl, -⟩ <;> rfl
  have hqT : q.Theta_ = (p.set_head d).Theta_ := by
    rcases hq with ⟨-, rfl⟩ | ⟨l, -, rfl, -⟩ <;> rfl
  refine ⟨by rw [hqE, hr], by rw [hqE, hE], ?_, ?_, ?_, ?_, ?_⟩
  · intro hn
    rw [hr, hE, hn]
    simp
  · intro v hv
    have : q.Theta_ = v - q.E_L_ := by rw [hqT, hqE, hT, hv]
    refine ⟨this, ?_⟩
    simp [Parameters_.get, this]
  · intro v hv
    have : q.V_reset_ = v - q.E_L_ := by rw [hqR, hqE, hR, hv]
    refine ⟨this, ?_⟩
    simp [Parameters_.get, this]
  · intro hn
    rw [hqT, hT, hn, hr]
  · intro hn
    rw [hqR, hR, hn, hr]

/-- C6 at a call that returns: the default parameters with `E_L = -65` and
`V_th = -50`. -/
theorem set_ok_relative_witness :
    default_parameters.set { E_L := some (-65), V_th := some (-50) } =
        ({ default_parameters with E_L_ := -65, Theta_ := 15, V_reset_ := -5 }, Except.ok 5) ∧
      (5 : ℚ) = (-65) - default_parameters.E_L_ :=
  have h : default_parameters.set { E_L := some (-65), V_th := some (-50) } =
      ({ default_parameters with E_L_ := -65, Theta_ := 15, V_reset_ := -5 }, Except.ok 5) := by
    norm_num [default_parameters, Parameters_.default, Parameters_.set, Parameters_.set_head,
      Parameters_.set_tail, updateValue]
  ⟨h, (set_ok_relative _ _ _ _ h).1⟩

end set_claims_2

/-! ## Lemmas on the loops of `update` -/

section loop_lemmas

theorem getD_set {β : Type} (l : List β) (i j : Nat) (a b : β) :
    (l.set i a).getD j b = if i = j ∧ i < l.length then a else l.getD j b := by
  rw [List.getD_eq_getElem?_getD, List.getD_eq_getElem?_getD, List.getElem?_set]
  by_cases hij : i = j
  · subst hij
    by_cases hl : i < l.length
    · rw [if_pos rfl, if_pos hl, if_pos ⟨rfl, hl⟩]
      rfl
    · rw [if_pos rfl, if_neg hl, if_neg (fun h => hl h.2),
        List.getElem?_eq_none (not_lt.mp hl)]
  · rw [if_neg hij, if_neg (fun h => hij h.1)]

theorem membrane_loop_zero (P21 isyn : List α) (hz : ∀ j, isyn.getD j 0 = 0) (k i : Nat)
    (acc : α × α) : membrane_loop P21 isyn k i acc = acc := by
  induction k generalizing i acc with
  | zero => rfl
  | succ k ih =>
    unfold membrane_loop
    rw [ih, hz, mul_zero, add_zero, add_zero]

theorem membrane_loop_single (P21 isyn : List α) (c : Nat)
    (hz : ∀ j, j ≠ c → isyn.getD j 0 = 0) (k i : Nat) (acc : α × α) :
    (membrane_loop P21 isyn k i acc).1 =
      if i ≤ c ∧ c < i + k then acc.1 + P21.getD c 0 * isyn.getD c 0 else acc.1 := by
  induction k generalizing i acc with
  | zero =>
    have : ¬ (i ≤ c ∧ c < i + 0) := by omega
    rw [if_neg this]
    rfl
  | succ k ih =>
    unfold membrane_loop
    rw [ih]
    by_cases hic : i = c
    · subst hic
      have h1 : ¬ (i + 1 ≤ i ∧ i < i + 1 + k) := by omega
      have h2 : i ≤ i ∧ i < i + (k + 1) := by omega
      rw [if_neg h1, if_pos h2]
    · have h0 := hz i hic
      by_cases h1 : i + 1 ≤ c ∧ c < i + 1 + k
      · have h2 : i ≤ c ∧ c < i + (k + 1) := by omega
        rw [if_pos h1, if_pos h2, h0, mul_zero, add_zero]
      · have h2 : ¬ (i ≤ c ∧ c < i + (k + 1)) := by omega
        rw [if_neg h1, if_neg h2, h0, mul_zero, add_zero]

theorem synapse_loop_length (P11 : List α) (lag : Int) (k i : Nat)
    (st : List α × List (RingBuffer α)) :
    (synapse_loop P11 lag k i st).1.length = st.1.length ∧
      (synapse_loop P11 lag k i st).2.length = st.2.length := by
  induction k generalizing i st with
  | zero => exact ⟨rfl, rfl⟩
  | succ k ih =>
    unfold synapse_loop
    obtain ⟨h1, h2⟩ := ih (i + 1)
      ((st.1.set i (st.1.getD i 0 * P11.getD i 0)).set i
          ((st.1.set i (st.1.getD i 0 * P11.getD i 0)).getD i 0 +
            ((st.2.getD i RingBuffer.clear).get_value lag).1),
        st.2.set i ((st.2.getD i RingBuffer.clear).get_value lag).2)
    simp only [List.length_set] at h1 h2
    exact ⟨h1, h2⟩

/-- The synaptic current of port `j` after the loop: decayed and augmented by
what is staged for `lag` when the loop visits `j`, unchanged otherwise. -/
theorem synapse_loop_getD (P11 : List α) (lag : Int) (k i : Nat)
    (st : List α × List (RingBuffer α)) (j : Nat) :
    (synapse_loop P11 lag k i st).1.getD j 0 =
      if i ≤ j ∧ j < i + k ∧ j < st.1.length then
        st.1.getD j 0 * P11.getD j 0 + (st.2.getD j RingBuffer.clear).buffer_ lag
      else st.1.getD j 0 := by
  induction k generalizing i st with
  | zero =>
    have : ¬ (i ≤ j ∧ j < i + 0 ∧ j < st.1.length) := by omega
    rw [if_neg this]
    rfl
  | succ k ih =>
    unfold synapse_loop
    rw [ih]
    simp only [List.length_set, getD_set, RingBuffer.get_value]
    by_cases hij : i = j
    · subst hij
      have h1 : ¬ (i + 1 ≤ i ∧ i < i + 1 + k ∧ i < st.1.length) := by omega
      by_cases hl : i < st.1.length
      · have h2 : i ≤ i ∧ i < i + (k + 1) ∧ i < st.1.length := by omega
        simp [h1, h2, hl]
      · have h2 : ¬ (i ≤ i ∧ i < i + (k + 1) ∧ i < st.1.length) := by omega
        simp [h1, h2, hl]
    · by_cases h1 : i + 1 ≤ j ∧ j < i + 1 + k ∧ j < st.1.length
      · have h2 : i ≤ j ∧ j < i + (k + 1) ∧ j < st.1.length := by omega
        simp [h1, h2, hij]
      · have h2 : ¬ (i ≤ j ∧ j < i + (k + 1) ∧ j < st.1.length) := by omega
        simp [h1, h2, hij]

/-- What is staged in the buffer of port `j` after the loop: the slot of `lag`
is consumed when the loop visits `j`, everything else is kept. -/
theorem synapse_loop_buffer (P11 : List α) (lag : Int) (k i : Nat)
    (st : List α × List (RingBuffer α)) (j : Nat) (x : Int) :
    ((synapse_loop P11 lag k i st).2.getD j RingBuffer.clear).buffer_ x =
      if i ≤ j ∧ j < i + k ∧ j < st.2.length ∧ x = lag then 0
      else (st.2.getD j RingBuffer.clear).buffer_ x := by
  induction k generalizing i st with
  | zero =>
    have : ¬ (i ≤ j ∧ j < i + 0 ∧ j < st.2.length ∧ x = lag) := by omega
    rw [if_neg this]
    rfl
  | succ k ih =>
    unfold synapse_loop
    rw [ih]
    simp only [List.length_set, getD_set, RingBuffer.get_value]
    by_cases hij : i = j
    · subst hij
      have h1 : ¬ (i + 1 ≤ i ∧ i < i + 1 + k ∧ i < st.2.length ∧ x = lag) := by omega
      by_cases hl : i < st.2.length
      · by_cases hx : x = lag
        · have h2 : i ≤ i ∧ i < i + (k + 1) ∧ i < st.2.length ∧ x = lag :=
            ⟨le_refl _, by omega, hl, hx⟩
          simp [h1, h2, hl, hx]
        · have h2 : ¬ (i ≤ i ∧ i < i + (k + 1) ∧ i < st.2.length ∧ x = lag) :=
            fun h => hx h.2.2.2
          simp [h1, h2, hl, hx]
      · have h2 : ¬ (i ≤ i ∧ i < i + (k + 1) ∧ i < st.2.length ∧ x = lag) :=
          fun h => hl h.2.2.1
        simp [h1, h2, hl]
    · by_cases h1 : i + 1 ≤ j ∧ j < i + 1 + k ∧ j < st.2.length ∧ x = lag
      · have h2 : i ≤ j ∧ j < i + (k + 1) ∧ j < st.2.length ∧ x = lag :=
          ⟨by omega, by omega, h1.2.2.1, h1.2.2.2⟩
        simp [h1, h2, hij]
      · have h2 : ¬ (i ≤ j ∧ j < i + (k + 1) ∧ j < st.2.length ∧ x = lag) := by
          intro h
          exact h1 ⟨by omega, by omega, h.2.2.1, h.2.2.2⟩
        simp [h1, h2, hij]

end loop_lemmas

/-! ## Lemmas on one step of `update` -/

section step_lemmas

variable (origin lag : Int) (n : Node α)

theorem update_membrane_frame :
    (update_membrane n).P_ = n.P_ ∧ (update_membrane n).V_ = n.V_ ∧
      (update_membrane n).B_ = n.B_ ∧ (update_membrane n).S_.i_syn_ = n.S_.i_syn_ ∧
      (update_membrane n).S_.I_const_ = n.S_.I_const_ ∧
      (update_membrane n).sent_ = n.sent_ ∧ (update_membrane n).spiketimes_ = n.spiketimes_ := by
  unfold update_membrane
  split_ifs <;> exact ⟨rfl, rfl, rfl, rfl, rfl, rfl, rfl⟩

theorem update_membrane_V_m :
    (update_membrane n).S_.V_m_ =
      if n.S_.refractory_steps_ = 0 then evolved_V_m n else n.S_.V_m_ := by
  unfold update_membrane evolved_V_m
  split_ifs <;> rfl

theorem update_membrane_refractory :
    (update_membrane n).S_.refractory_steps_ =
      if n.S_.refractory_steps_ = 0 then 0 else n.S_.refractory_steps_ - 1 := by
  unfold update_membrane
  split_ifs with h
  · exact h
  · rfl

theorem update_step_frame :
    (update_step origin lag n).P_ = n.P_ ∧ (update_step origin lag n).V_ = n.V_ := by
  obtain ⟨h1, h2, -⟩ := update_membrane_frame n
  unfold update_step update_log update_current update_threshold update_synapses
  constructor
  · split_ifs <;> exact h1
  · split_ifs <;> exact h2

theorem update_step_V_m :
    (update_step origin lag n).S_.V_m_ =
      if (update_membrane n).S_.V_m_ ≥ n.P_.Theta_ then n.P_.V_reset_
      else (update_membrane n).S_.V_m_ := by
  obtain ⟨h1, -⟩ := update_membrane_frame n
  unfold update_step update_log update_current update_threshold update_synapses
  simp only [h1]
  split_ifs <;> rfl

theorem update_step_refractory :
    (update_step origin lag n).S_.refractory_steps_ =
      if (update_membrane n).S_.V_m_ ≥ n.P_.Theta_ then n.V_.RefractoryCounts_
      else (update_membrane n).S_.refractory_steps_ := by
  obtain ⟨h1, h2, -⟩ := update_membrane_frame n
  unfold update_step update_log update_current update_threshold update_synapses
  simp only [h1, h2]
  split_ifs <;> rfl

theorem update_step_sent :
    (update_step origin lag n).sent_ =
      if (update_membrane n).S_.V_m_ ≥ n.P_.Theta_ then n.sent_ ++ [lag] else n.sent_ := by
  obtain ⟨h1, -, -, -, -, h6, -⟩ := update_membrane_frame n
  unfold update_step update_log update_current update_threshold update_synapses
  simp only [h1, h6]
  split_ifs <;> rfl

theorem update_step_spiketimes :
    (update_step origin lag n).spiketimes_ =
      if (update_membrane n).S_.V_m_ ≥ n.P_.Theta_ then n.spiketimes_ ++ [origin + lag + 1]
      else n.spiketimes_ := by
  obtain ⟨h1, -, -, -, -, -, h7⟩ := update_membrane_frame n
  unfold update_step update_log update_current update_threshold update_synapses
  simp only [h1, h7]
  split_ifs <;> rfl

theorem update_step_i_syn :
    (update_step origin lag n).S_.i_syn_ =
      (synapse_loop n.V_.P11_syn_ lag n.P_.num_of_receptors_ 0 (n.S_.i_syn_, n.B_.spikes_)).1 := by
  obtain ⟨h1, h2, h3, h4, -⟩ := update_membrane_frame n
  unfold update_step update_log update_current update_threshold update_synapses
  simp only [h1, h2, h3, h4]
  split_ifs <;> rfl

theorem update_step_spikes :
    (update_step origin lag n).B_.spikes_ =
      (synapse_loop n.V_.P11_syn_ lag n.P_.num_of_receptors_ 0 (n.S_.i_syn_, n.B_.spikes_)).2 := by
  obtain ⟨h1, h2, h3, h4, -⟩ := update_membrane_frame n
  unfold update_step update_log update_current update_threshold update_synapses
  simp only [h1, h2, h3, h4]
  split_ifs <;> rfl

theorem update_step_I_const :
    (update_step origin lag n).S_.I_const_ = n.B_.currents_.buffer_ lag := by
  obtain ⟨-, -, h3, -⟩ := update_membrane_frame n
  unfold update_step update_log update_current update_threshold update_synapses
  simp only [h3, RingBuffer.get_value]
  split_ifs <;> rfl

theorem update_step_currents (x : Int) :
    (update_step origin lag n).B_.currents_.buffer_ x =
      if x = lag then 0 else n.B_.currents_.buffer_ x := by
  obtain ⟨-, -, h3, -⟩ := update_membrane_frame n
  unfold update_step update_log update_current update_threshold update_synapses
  simp only [h3, RingBuffer.get_value]
  split_ifs <;> rfl

/-- After one step the membrane potential is below the threshold, whatever the
state before it. -/
theorem update_step_below_threshold (hV : n.P_.V_reset_ < n.P_.Theta_) :
    (update_step origin lag n).S_.V_m_ < n.P_.Theta_ := by
  rw [update_step_V_m]
  split_ifs with h
  · exact hV
  · exact not_le.mp h

/-- One step of a refractory node that sits at the reset potential: the
potential stays, the counter goes down by one, nothing is sent. -/
theorem update_step_refractory_node (j : Nat) (hV : n.P_.V_reset_ < n.P_.Theta_)
    (hm : n.S_.V_m_ = n.P_.V_reset_) (hr : n.S_.refractory_steps_ = (j : Int) + 1) :
    (update_step origin lag n).S_.V_m_ = n.P_.V_reset_ ∧
      (update_step origin lag n).S_.refractory_steps_ = (j : Int) ∧
      (update_step origin lag n).sent_ = n.sent_ ∧
      (update_step origin lag n).spiketimes_ = n.spiketimes_ := by
  have hne : n.S_.refractory_steps_ ≠ 0 := by rw [hr]; omega
  have h1 : (update_membrane n).S_.V_m_ = n.P_.V_reset_ := by
    rw [update_membrane_V_m, if_neg hne, hm]
  have h2 : ¬ (update_membrane n).S_.V_m_ ≥ n.P_.Theta_ := by
    rw [h1]; exact not_le.mpr hV
  rw [update_step_V_m, update_step_refractory, update_step_sent, update_step_spiketimes,
    if_neg h2, if_neg h2, if_neg h2, if_neg h2, update_membrane_refractory, if_neg hne, hr]
  exact ⟨h1, by omega, rfl, rfl⟩

theorem update_loop_frame (k : Nat) :
    (update_loop origin k lag n).P_ = n.P_ ∧ (update_loop origin k lag n).V_ = n.V_ := by
  induction k generalizing lag n with
  | zero => exact ⟨rfl, rfl⟩
  | succ k ih =>
    unfold update_loop
    obtain ⟨h1, h2⟩ := ih (lag + 1) (update_step origin lag n)
    obtain ⟨h3, h4⟩ := update_step_frame origin lag n
    exact ⟨h1.trans h3, h2.trans h4⟩

theorem update_loop_succ (k : Nat) :
    update_loop origin (k + 1) lag n =
      update_step origin (lag + k) (update_loop origin k lag n) := by
  induction k generalizing lag n with
  | zero => simp [update_loop]
  | succ k ih =>
    rw [update_loop, ih (lag + 1) (update_step origin lag n), update_loop]
    congr 1
    push_cast
    ring

/-- The refractory window: `k` steps of a node that sits at the reset potential
with at least `k` refractory steps left. -/
theorem update_loop_refractory (k j : Nat) (hk : k ≤ j) (hV : n.P_.V_reset_ < n.P_.Theta_)
    (hm : n.S_.V_m_ = n.P_.V_reset_) (hr : n.S_.refractory_steps_ = (j : Int)) :
    (update_loop origin k lag n).S_.V_m_ = n.P_.V_reset_ ∧
      (update_loop origin k lag n).S_.refractory_steps_ = (j : Int) - k ∧
      (update_loop origin k lag n).sent_ = n.sent_ ∧
      (update_loop origin k lag n).spiketimes_ = n.spiketimes_ := by
  induction k generalizing lag n j with
  | zero => exact ⟨hm, by simpa using hr, rfl, rfl⟩
  | succ k ih =>
    obtain ⟨j, rfl⟩ : ∃ i, j = i + 1 := ⟨j - 1, by omega⟩
    obtain ⟨a, b, c, e⟩ := update_step_refractory_node origin lag n j hV hm (by simpa using hr)
    obtain ⟨f1, -⟩ := update_step_frame origin lag n
    unfold update_loop
    obtain ⟨a', b', c', e'⟩ := ih (lag + 1) (update_step origin lag n) j (by omega)
      (by rw [f1]; exact hV) (by rw [f1]; exact a) b
    rw [f1] at a'
    refine ⟨a', ?_, c'.trans c, e'.trans e⟩
    rw [b']
    push_cast
    ring

end step_lemmas

/-! ## Lemmas on `calibrate` -/

section calibrate_lemmas

theorem vector_resize_length {β : Type} (v : List β) (k : Nat) (fill : β) :
    (vector_resize v k fill).length = k := by
  unfold vector_resize
  rw [List.length_append, List.length_take, List.length_replicate]
  omega

theorem vector_resize_nil_getD {β : Type} (k j : Nat) (fill : β) :
    (vector_resize ([] : List β) k fill).getD j fill = fill := by
  unfold vector_resize
  rw [List.take_nil, List.nil_append, List.getD_eq_getElem?_getD, List.getElem?_replicate]
  split_ifs <;> rfl

theorem calibrate_loop_length (K : Kernel α) (P : Parameters_ α) (k i : Nat)
    (st : List α × List α × List (RingBuffer α)) :
    (calibrate_loop K P k i st).1.length = st.1.length ∧
      (calibrate_loop K P k i st).2.1.length = st.2.1.length ∧
      (calibrate_loop K P k i st).2.2.length = st.2.2.length := by
  induction k generalizing i st with
  | zero => exact ⟨rfl, rfl, rfl⟩
  | succ k ih =>
    unfold calibrate_loop
    obtain ⟨h1, h2, h3⟩ := ih (i + 1)
      (st.1.set i (K.exp (-K.h / P.tau_syn_.getD i 0)),
        st.2.1.set i (K.propagator_32 (P.tau_syn_.getD i 0) P.Tau_ P.C_ K.h),
        st.2.2.set i (st.2.2.getD i RingBuffer.clear).resize)
    simp only [List.length_set] at h1 h2 h3
    exact ⟨h1, h2, h3⟩

theorem calibrate_loop_P11 (K : Kernel α) (P : Parameters_ α) (k i : Nat)
    (st : List α × List α × List (RingBuffer α)) (j : Nat) :
    (calibrate_loop K P k i st).1.getD j 0 =
      if i ≤ j ∧ j < i + k ∧ j < st.1.length then K.exp (-K.h / P.tau_syn_.getD j 0)
      else st.1.getD j 0 := by
  induction k generalizing i st with
  | zero =>
    have : ¬ (i ≤ j ∧ j < i + 0 ∧ j < st.1.length) := by omega
    rw [if_neg this]
    rfl
  | succ k ih =>
    unfold calibrate_loop
    rw [ih]
    simp only [List.length_set, getD_set]
    by_cases hij : i = j
    · subst hij
      have h1 : ¬ (i + 1 ≤ i ∧ i < i + 1 + k ∧ i < st.1.length) := by omega
      by_cases hl : i < st.1.length
      · have h2 : i ≤ i ∧ i < i + (k + 1) ∧ i < st.1.length := by omega
        rw [if_neg h1, if_pos ⟨rfl, hl⟩, if_pos h2]
      · have h2 : ¬ (i ≤ i ∧ i < i + (k + 1) ∧ i < st.1.length) := by omega
        rw [if_neg h1, if_neg (fun h => hl h.2), if_neg h2]
    · by_cases h1 : i + 1 ≤ j ∧ j < i + 1 + k ∧ j < st.1.length
      · have h2 : i ≤ j ∧ j < i + (k + 1) ∧ j < st.1.length := by omega
        rw [if_pos h1, if_pos h2]
      · have h2 : ¬ (i ≤ j ∧ j < i + (k + 1) ∧ j < st.1.length) := by omega
        rw [if_neg h1, if_neg h2, if_neg (fun h => hij h.1)]

theorem calibrate_loop_P21 (K : Kernel α) (P : Parameters_ α) (k i : Nat)
    (st : List α × List α × List (RingBuffer α)) (j : Nat) :
    (calibrate_loop K P k i st).2.1.getD j 0 =
      if i ≤ j ∧ j < i + k ∧ j < st.2.1.length then
        K.propagator_32 (P.tau_syn_.getD j 0) P.Tau_ P.C_ K.h
      else st.2.1.getD j 0 := by
  induction k generalizing i st with
  | zero =>
    have : ¬ (i ≤ j ∧ j < i + 0 ∧ j < st.2.1.length) := by omega
    rw [if_neg this]
    rfl
  | succ k ih =>
    unfold calibrate_loop
    rw [ih]
    simp only [List.length_set, getD_set]
    by_cases hij : i = j
    · subst hij
      have h1 : ¬ (i + 1 ≤ i ∧ i < i + 1 + k ∧ i < st.2.1.length) := by omega
      by_cases hl : i < st.2.1.length
      · have h2 : i ≤ i ∧ i < i + (k + 1) ∧ i < st.2.1.length := by omega
        rw [if_neg h1, if_pos ⟨rfl, hl⟩, if_pos h2]
      · have h2 : ¬ (i ≤ i ∧ i < i + (k + 1) ∧ i < st.2.1.length) := by omega
        rw [if_neg h1, if_neg (fun h => hl h.2), if_neg h2]
    · by_cases h1 : i + 1 ≤ j ∧ j < i + 1 + k ∧ j < st.2.1.length
      · have h2 : i ≤ j ∧ j < i + (k + 1) ∧ j < st.2.1.length := by omega
        rw [if_pos h1, if_pos h2]
      · have h2 : ¬ (i ≤ j ∧ j < i + (k + 1) ∧ j < st.2.1.length) := by omega
        rw [if_neg h1, if_neg h2, if_neg (fun h => hij h.1)]

theorem calibrate_loop_spikes (K : Kernel α) (P : Parameters_ α) (k i : Nat)
    (st : List α × List α × List (RingBuffer α)) (j : Nat) :
    (calibrate_loop K P k i st).2.2.getD j RingBuffer.clear =
      st.2.2.getD j RingBuffer.clear := by
  induction k generalizing i st with
  | zero => rfl
  | succ k ih =>
    unfold calibrate_loop
    rw [ih]
    simp only [getD_set, RingBuffer.resize]
    split_ifs with h
    · rw [h.1]
    · rfl

variable (K : Kernel α) (n : Node α)

theorem calibrate_frame :
    (calibrate K n).S_.V_m_ = n.S_.V_m_ ∧ (calibrate K n).S_.I_const_ = n.S_.I_const_ ∧
      (calibrate K n).S_.refractory_steps_ = n.S_.refractory_steps_ ∧
      (calibrate K n).P_.I_e_ = n.P_.I_e_ ∧ (calibrate K n).P_.Theta_ = n.P_.Theta_ ∧
      (calibrate K n).P_.V_reset_ = n.P_.V_reset_ ∧
      (calibrate K n).P_.num_of_receptors_ = n.P_.num_of_receptors_ ∧
      (calibrate K n).B_.currents_ = n.B_.currents_ ∧
      (calibrate K n).sent_ = n.sent_ :=
  ⟨rfl, rfl, rfl, rfl, rfl, rfl, rfl, rfl, rfl⟩

theorem calibrate_i_syn :
    (calibrate K n).S_.i_syn_ = vector_resize n.S_.i_syn_ n.P_.num_of_receptors_ 0 := rfl

theorem calibrate_P11 (c : Nat) (hc : c < n.P_.num_of_receptors_) :
    (calibrate K n).V_.P11_syn_.getD c 0 = K.exp (-K.h / n.P_.tau_syn_.getD c 0) := by
  unfold calibrate
  simp only
  rw [calibrate_loop_P11,
    if_pos ⟨Nat.zero_le _, by omega, by rw [vector_resize_length]; exact hc⟩]

theorem calibrate_P21 (c : Nat) (hc : c < n.P_.num_of_receptors_) :
    (calibrate K n).V_.P21_syn_.getD c 0 =
      K.propagator_32 (n.P_.tau_syn_.getD c 0) n.P_.Tau_ n.P_.C_ K.h := by
  unfold calibrate
  simp only
  rw [calibrate_loop_P21,
    if_pos ⟨Nat.zero_le _, by omega, by rw [vector_resize_length]; exact hc⟩]

theorem calibrate_spikes_length :
    (calibrate K n).B_.spikes_.length = n.P_.num_of_receptors_ := by
  unfold calibrate
  simp only
  rw [(calibrate_loop_length _ _ _ _ _).2.2, vector_resize_length]

theorem calibrate_spikes_getD (j : Nat) :
    (calibrate K n).B_.spikes_.getD j RingBuffer.clear =
      (vector_resize n.B_.spikes_ n.P_.num_of_receptors_ RingBuffer.clear).getD j
        RingBuffer.clear := by
  unfold calibrate
  simp only
  rw [calibrate_loop_spikes]

end calibrate_lemmas

/-! ## Spike and refractory period (C7) -/

section refractory_claims

/-- C7: with `V_reset_ < Theta_` and `RefractoryCounts_ = R ≥ 0`, when step `t`
starts with the node integrating and the evolved potential reaches the
threshold, then at that step exactly one spike event is sent, with lag `t`, and
the potential becomes `V_reset_`; after each of the next `R` steps the potential
is still `V_reset_` and nothing more has been sent, whatever the buffers hold;
each of these `R` steps starts refractory and leaves the potential alone in its
first statement, and step `t + R + 1` starts with the counter at zero and
computes the integrating update. -/
theorem spike_then_refractory (origin t : Int) (n : Node α) (R : Nat)
    (hR : n.V_.RefractoryCounts_ = (R : Int)) (hV : n.P_.V_reset_ < n.P_.Theta_)
    (h0 : n.S_.refractory_steps_ = 0) (hx : evolved_V_m n ≥ n.P_.Theta_) :
    (update_step origin t n).sent_ = n.sent_ ++ [t] ∧
      (update_step origin t n).spiketimes_ = n.spiketimes_ ++ [origin + t + 1] ∧
      (update_step origin t n).S_.V_m_ = n.P_.V_reset_ ∧
      (∀ k, k ≤ R →
        (update_loop origin k (t + 1) (update_step origin t n)).S_.V_m_ = n.P_.V_reset_ ∧
          (update_loop origin k (t + 1) (update_step origin t n)).sent_ = n.sent_ ++ [t]) ∧
      (∀ k, k < R →
        (update_loop origin k (t + 1) (update_step origin t n)).S_.refractory_steps_ ≠ 0 ∧
          (update_membrane (update_loop origin k (t + 1) (update_step origin t n))).S_.V_m_ =
            n.P_.V_reset_) ∧
      (update_loop origin R (t + 1) (update_step origin t n)).S_.refractory_steps_ = 0 ∧
      (update_membrane (update_loop origin R (t + 1) (update_step origin t n))).S_.V_m_ =
        evolved_V_m (update_loop origin R (t + 1) (update_step origin t n)) := by
  have hm : (update_membrane n).S_.V_m_ ≥ n.P_.Theta_ := by
    rw [update_membrane_V_m, if_pos h0]; exact hx
  obtain ⟨f1, -⟩ := update_step_frame origin t n
  have s1 : (update_step origin t n).S_.V_m_ = n.P_.V_reset_ := by
    rw [update_step_V_m, if_pos hm]
  have s2 : (update_step origin t n).S_.refractory_steps_ = (R : Int) := by
    rw [update_step_refractory, if_pos hm, hR]
  have s3 : (update_step origin t n).sent_ = n.sent_ ++ [t] := by
    rw [update_step_sent, if_pos hm]
  have s4 : (update_step origin t n).spiketimes_ = n.spiketimes_ ++ [origin + t + 1] := by
    rw [update_step_spiketimes, if_pos hm]
  have run : ∀ k, k ≤ R →
      (update_loop origin k (t + 1) (update_step origin t n)).S_.V_m_ = n.P_.V_reset_ ∧
        (update_loop origin k (t + 1) (update_step origin t n)).S_.refractory_steps_ =
          (R : Int) - k ∧
        (update_loop origin k (t + 1) (update_step origin t n)).sent_ = n.sent_ ++ [t] := by
    intro k hk
    obtain ⟨a, b, c, -⟩ := update_loop_refractory origin (t + 1) (update_step origin t n) k R hk
      (by rw [f1]; exact hV) (by rw [f1]; exact s1) s2
    rw [f1] at a
    exact ⟨a, b, c.trans s3⟩
  refine ⟨s3, s4, s1, fun k hk => ⟨(run k hk).1, (run k hk).2.2⟩, ?_, ?_, ?_⟩
  · intro k hk
    obtain ⟨a, b, -⟩ := run k (le_of_lt hk)
    have hne :
        (update_loop origin k (t + 1) (update_step origin t n)).S_.refractory_steps_ ≠ 0 := by
      rw [b]; omega
    exact ⟨hne, by rw [update_membrane_V_m, if_neg hne, a]⟩
  · rw [(run R le_rfl).2.1]; omega
  · rw [update_membrane_V_m, if_pos (by rw [(run R le_rfl).2.1]; omega)]

/-- C7 at `hot_node`, whose potential of 20 mV evolves to 19.8 mV, above the
threshold of 15 mV: the spike is sent at step 3 and the potential is reset. -/
theorem spike_then_refractory_witness :
    evolved_V_m hot_node ≥ hot_node.P_.Theta_ ∧
      (update_step 0 3 hot_node).sent_ = hot_node.sent_ ++ [3] ∧
      (update_step 0 3 hot_node).S_.V_m_ = hot_node.P_.V_reset_ :=
  have hx : evolved_V_m hot_node ≥ hot_node.P_.Theta_ := by
    norm_num [evolved_V_m, hot_node, membrane_loop, Node.default, Parameters_.default,
      State_.default]
  have h := spike_then_refractory 0 3 hot_node 20 rfl
    (by norm_num [hot_node, Node.default, Parameters_.default]) rfl hx
  ⟨hx, h.1, h.2.2.1⟩

end refractory_claims

/-! ## Rest (C8) -/

section rest_claims

theorem at_rest_membrane (n : Node α) (hI : n.P_.I_e_ = 0) (hr : n.at_rest) :
    (update_membrane n).S_.V_m_ = 0 := by
  obtain ⟨h1, h2, h3, h4⟩ := hr
  rw [update_membrane_V_m, if_pos h4]
  unfold evolved_V_m
  rw [membrane_loop_zero _ _ h2, h1, hI, h3]
  simp

/-- One step of a node at rest with empty buffers, no external current and a
threshold above rest leaves it at rest with empty buffers. -/
theorem at_rest_step (origin lag : Int) (n : Node α) (hI : n.P_.I_e_ = 0)
    (hT : 0 < n.P_.Theta_) (hr : n.at_rest) (hb : n.buffers_empty) :
    (update_step origin lag n).at_rest ∧ (update_step origin lag n).buffers_empty := by
  have hm := at_rest_membrane n hI hr
  have hno : ¬ (update_membrane n).S_.V_m_ ≥ n.P_.Theta_ := by
    rw [hm]; exact not_le.mpr hT
  obtain ⟨h1, h2, h3, h4⟩ := hr
  obtain ⟨b1, b2⟩ := hb
  refine ⟨⟨?_, ?_, ?_, ?_⟩, ?_, ?_⟩
  · rw [update_step_V_m, if_neg hno, hm]
  · intro j
    rw [update_step_i_syn, synapse_loop_getD]
    split_ifs
    · rw [h2, b1]; simp
    · exact h2 j
  · rw [update_step_I_const, b2]
  · rw [update_step_refractory, if_neg hno, update_membrane_refractory, if_pos h4]
  · intro j x
    rw [update_step_spikes, synapse_loop_buffer]
    split_ifs
    · rfl
    · exact b1 j x
  · intro x
    rw [update_step_currents]
    split_ifs
    · rfl
    · exact b2 x

theorem at_rest_loop (origin : Int) (k : Nat) (lag : Int) (n : Node α) (hI : n.P_.I_e_ = 0)
    (hT : 0 < n.P_.Theta_) (hr : n.at_rest) (hb : n.buffers_empty) :
    (update_loop origin k lag n).at_rest := by
  induction k generalizing lag n with
  | zero => exact hr
  | succ k ih =>
    unfold update_loop
    obtain ⟨a, b⟩ := at_rest_step origin lag n hI hT hr hb
    obtain ⟨f1, -⟩ := update_step_frame origin lag n
    exact ih (lag + 1) _ (by rw [f1]; exact hI) (by rw [f1]; exact hT) a b

/-- What one step makes of the potential of a node at rest without external
current: it fires when the threshold is not above rest. -/
theorem at_rest_step_V_m (origin lag : Int) (n : Node α) (hI : n.P_.I_e_ = 0)
    (hr : n.at_rest) :
    (update_step origin lag n).S_.V_m_ = if 0 ≥ n.P_.Theta_ then n.P_.V_reset_ else 0 := by
  rw [update_step_V_m, at_rest_membrane n hI hr]

/-- C8, amended: for parameters with `I_e_ = 0` and a threshold above the
resting potential (`Theta_ > 0`), a node at rest with empty buffers is still at
potential `0` after `update` over any range that passes the assertions. -/
theorem rest_is_kept (min_delay origin from_ to_ : Int) (n : Node α)
    (hI : n.P_.I_e_ = 0) (hT : 0 < n.P_.Theta_) (hr : n.at_rest) (hb : n.buffers_empty)
    (h1 : 0 ≤ to_) (h2 : from_ < min_delay) (h3 : from_ < to_) :
    ∃ m, update min_delay origin from_ to_ n = some m ∧ m.S_.V_m_ = 0 := by
  refine ⟨update_loop origin (to_ - from_).toNat from_ n, ?_, ?_⟩
  · unfold update
    rw [if_pos ⟨h1, h2⟩, if_pos h3]
  · exact (at_rest_loop origin _ from_ n hI hT hr hb).1

/-- C8 amended, at `resting_node` over the steps 0 to 4, with a minimal delay of
5 steps. -/
theorem rest_is_kept_witness :
    resting_node.at_rest ∧ resting_node.buffers_empty ∧
      ∃ m, update 5 0 0 5 resting_node = some m ∧ m.S_.V_m_ = 0 :=
  have hr : resting_node.at_rest := by
    simp [Node.at_rest, resting_node, Node.default, State_.default]
  have hb : resting_node.buffers_empty := by
    simp [Node.buffers_empty, resting_node, Node.default, RingBuffer.clear]
  ⟨hr, hb, rest_is_kept 5 0 0 5 resting_node
    (by simp [resting_node, Node.default, Parameters_.default])
    (by norm_num [resting_node, Node.default, Parameters_.default]) hr hb
    (by decide) (by decide) (by decide)⟩

/-- C8, as stated, fails: `Parameters_::set` accepts `V_th = -80`,
`V_reset = -90` on the default parameters (`E_L = -70`), which stores
`Theta_ = -10` and `V_reset_ = -20`.  The node constructed with these
parameters and calibrated is at rest with empty buffers and has `I_e_ = 0`, and
the first step of `update` finds `0 >= Theta_`, sends a spike and leaves the
potential at `-20`. -/
theorem rest_fires_below_threshold :
    (Parameters_.default : Parameters_ ℝ).set { V_th := some (-80), V_reset := some (-90) } =
        (low_threshold, Except.ok 0) ∧
      (calibrate (exact_kernel Real.exp)
        (Node.with_parameters (low_threshold : Parameters_ ℝ) 0)).P_.I_e_ = 0 ∧
      (calibrate (exact_kernel Real.exp)
        (Node.with_parameters (low_threshold : Parameters_ ℝ) 0)).at_rest ∧
      (calibrate (exact_kernel Real.exp)
        (Node.with_parameters (low_threshold : Parameters_ ℝ) 0)).buffers_empty ∧
      (update 1 0 0 1
        (calibrate (exact_kernel Real.exp)
          (Node.with_parameters (low_threshold : Parameters_ ℝ) 0))).map
        (fun m => (m.S_.V_m_, m.sent_)) = some (-20, [0]) := by
  have hI : (calibrate (exact_kernel Real.exp)
      (Node.with_parameters (low_threshold : Parameters_ ℝ) 0)).P_.I_e_ = 0 := rfl
  have hr : (calibrate (exact_kernel Real.exp)
      (Node.with_parameters (low_threshold : Parameters_ ℝ) 0)).at_rest := by
    simp [Node.at_rest, calibrate, Node.with_parameters, Node.default, State_.default,
      low_threshold, Parameters_.default, vector_resize]
  refine ⟨?_, hI, hr, ?_, ?_⟩
  · norm_num [low_threshold, Parameters_.default, Parameters_.set, Parameters_.set_head,
      Parameters_.set_tail, updateValue]
  · simp [Node.buffers_empty, calibrate, Node.with_parameters, Node.default, low_threshold,
      Parameters_.default, vector_resize, calibrate_loop, RingBuffer.clear]
  · have hstep := at_rest_step_V_m 0 0 _ hI hr
    have hsent := update_step_sent 0 0 (calibrate (exact_kernel Real.exp)
      (Node.with_parameters (low_threshold : Parameters_ ℝ) 0))
    rw [at_rest_membrane _ hI hr] at hsent
    have hth : (0 : ℝ) ≥ (calibrate (exact_kernel Real.exp)
        (Node.with_parameters (low_threshold : Parameters_ ℝ) 0)).P_.Theta_ := by
      norm_num [calibrate, Node.with_parameters, low_threshold]
    rw [if_pos hth] at hstep hsent
    have hu : update 1 0 0 1
        (calibrate (exact_kernel Real.exp)
          (Node.with_parameters (low_threshold : Parameters_ ℝ) 0)) =
        some (update_step 0 0 (calibrate (exact_kernel Real.exp)
          (Node.with_parameters (low_threshold : Parameters_ ℝ) 0))) := by
      simp [update, update_loop]
    rw [hu, Option.map_some', hstep, hsent]
    simp [calibrate, Node.with_parameters, Node.default, low_threshold]

end rest_claims

/-! ## Response to a single spike (C9) -/

section single_spike

/-- Two steps of a node at rest, with threshold above rest, that has the weight
`w` staged for step 0 on port `c` and nothing else staged for step 0: the
potential after step 1 is `P21_syn_[ c ] * w`, or `V_reset_` when that reaches
the threshold. -/
theorem two_steps_after_spike (origin : Int) (n : Node α) (c : Nat) (w : α)
    (hI : n.P_.I_e_ = 0) (hr : n.at_rest) (hc : c < n.P_.num_of_receptors_)
    (hl : c < n.S_.i_syn_.length)
    (hbc : (n.B_.spikes_.getD c RingBuffer.clear).buffer_ 0 = w)
    (hbo : ∀ j, j ≠ c → (n.B_.spikes_.getD j RingBuffer.clear).buffer_ 0 = 0)
    (hcur : n.B_.currents_.buffer_ 0 = 0) (hT : 0 < n.P_.Theta_) :
    (update_step origin 1 (update_step origin 0 n)).S_.V_m_ =
      if n.V_.P21_syn_.getD c 0 * w ≥ n.P_.Theta_ then n.P_.V_reset_
      else n.V_.P21_syn_.getD c 0 * w := by
  have hm := at_rest_membrane n hI hr
  have hno : ¬ (update_membrane n).S_.V_m_ ≥ n.P_.Theta_ := by
    rw [hm]; exact not_le.mpr hT
  obtain ⟨h1, h2, h3, h4⟩ := hr
  obtain ⟨f1, f2⟩ := update_step_frame origin 0 n
  have a1 : (update_step origin 0 n).S_.V_m_ = 0 := by
    rw [update_step_V_m, if_neg hno, hm]
  have a2 : (update_step origin 0 n).S_.refractory_steps_ = 0 := by
    rw [update_step_refractory, if_neg hno, update_membrane_refractory, if_pos h4]
  have a3 : (update_step origin 0 n).S_.I_const_ = 0 := by
    rw [update_step_I_const, hcur]
  have a4 : (update_step origin 0 n).S_.i_syn_.getD c 0 = w := by
    rw [update_step_i_syn, synapse_loop_getD, if_pos ⟨Nat.zero_le _, by omega, hl⟩, h2, hbc]
    simp
  have a5 : ∀ j, j ≠ c → (update_step origin 0 n).S_.i_syn_.getD j 0 = 0 := by
    intro j hj
    rw [update_step_i_syn, synapse_loop_getD]
    split_ifs
    · rw [h2, hbo j hj]; simp
    · exact h2 j
  have a6 : (update_membrane (update_step origin 0 n)).S_.V_m_ =
      n.V_.P21_syn_.getD c 0 * w := by
    rw [update_membrane_V_m, if_pos a2]
    unfold evolved_V_m
    rw [membrane_loop_single _ _ c a5, f1, f2, if_pos ⟨Nat.zero_le _, by omega⟩, a1, a3, a4, hI]
    simp
  rw [update_step_V_m, a6, f1]

/-- The node that `handle( SpikeEvent& )` leaves: the weight times the
multiplicity is added to what port `rport - 1` has staged at the delivery step,
and nothing else changes. -/
theorem handle_spike_staged (n : Node α) (c : Nat) (w : α) (hl : c < n.B_.spikes_.length) :
    ∃ m, handle_spike n
        { rport := (c : Int) + 1, delay := 1, rel_delivery_steps := 0, weight := w,
          multiplicity := 1 } = some m ∧
      m.P_ = n.P_ ∧ m.S_ = n.S_ ∧ m.V_ = n.V_ ∧ m.B_.currents_ = n.B_.currents_ ∧
      (m.B_.spikes_.getD c RingBuffer.clear).buffer_ 0 =
        (n.B_.spikes_.getD c RingBuffer.clear).buffer_ 0 + w ∧
      ∀ j, j ≠ c → m.B_.spikes_.getD j RingBuffer.clear =
        n.B_.spikes_.getD j RingBuffer.clear := by
  have hidx : ((c : Int) + 1 - 1).toNat = c := by simp
  refine ⟨{ n with
      B_ := { n.B_ with
        spikes_ := n.B_.spikes_.set c
          ((n.B_.spikes_.getD c RingBuffer.clear).add_value 0 (w * ((1 : Int) : α))) } },
    ?_, rfl, rfl, rfl, rfl, ?_, ?_⟩
  · unfold handle_spike
    simp only [hidx]
    rw [if_pos (by decide)]
  · simp only [getD_set]
    rw [if_pos ⟨trivial, hl⟩]
    simp [RingBuffer.add_value]
  · intro j hj
    simp only [getD_set]
    rw [if_neg (fun h => hj h.1.symm)]

/-- After a spike of weight `w > 0` on port `c` at step 0 into the node
constructed with parameters `p` and calibrated, what `update` over the steps 0
and 1 leaves as potential: it is zero exactly when the threshold is above rest,
the spike drives the potential to the threshold and the reset potential equals
the resting potential. -/
theorem single_spike_V_m (K : Kernel α) (min_delay origin : Int) (p : Parameters_ α)
    (current0 w : α) (c : Nat) (hI : p.I_e_ = 0) (hV : p.V_reset_ < p.Theta_)
    (hc : c < p.num_of_receptors_)
    (hP : (calibrate K (Node.with_parameters p current0)).V_.P21_syn_.getD c 0 ≠ 0)
    (hw : 0 < w) (hd : 0 < min_delay) :
    ∃ n1 m,
      handle_spike (calibrate K (Node.with_parameters p current0))
          { rport := (c : Int) + 1, delay := 1, rel_delivery_steps := 0, weight := w,
            multiplicity := 1 } = some n1 ∧
        update min_delay origin 0 2 n1 = some m ∧
        (m.S_.V_m_ ≠ 0 ↔
          ¬ (0 < p.Theta_ ∧
            p.Theta_ ≤ (calibrate K (Node.with_parameters p current0)).V_.P21_syn_.getD c 0 * w ∧
            p.V_reset_ = 0)) := by
  have hlen : c < (calibrate K (Node.with_parameters p current0)).B_.spikes_.length := by
    rw [calibrate_spikes_length]; exact hc
  obtain ⟨n1, hn1, eP, eS, eV, eC, eb, eo⟩ :=
    handle_spike_staged (calibrate K (Node.with_parameters p current0)) c w hlen
  have hclear : ∀ j x, ((calibrate K (Node.with_parameters p current0)).B_.spikes_.getD j
      RingBuffer.clear).buffer_ x = 0 := by
    intro j x
    rw [calibrate_spikes_getD]
    show ((vector_resize ([] : List (RingBuffer α)) _ RingBuffer.clear).getD j
      RingBuffer.clear).buffer_ x = 0
    rw [vector_resize_nil_getD]
    rfl
  have hisyn : n1.S_.i_syn_ = vector_resize ([] : List α) p.num_of_receptors_ 0 := by
    rw [eS]; rfl
  have hrest : n1.at_rest := by
    refine ⟨by rw [eS]; rfl, ?_, by rw [eS]; rfl, by rw [eS]; rfl⟩
    intro j
    rw [hisyn, vector_resize_nil_getD]
  have hnP : n1.P_.I_e_ = 0 ∧ n1.P_.Theta_ = p.Theta_ ∧ n1.P_.V_reset_ = p.V_reset_ ∧
      n1.P_.num_of_receptors_ = p.num_of_receptors_ := by
    rw [eP]; exact ⟨hI, rfl, rfl, rfl⟩
  have hup : update min_delay origin 0 2 n1 =
      some (update_step origin 1 (update_step origin 0 n1)) := by
    unfold update
    rw [if_pos ⟨by decide, hd⟩, if_pos (by decide)]
    rfl
  refine ⟨n1, _, hn1, hup, ?_⟩
  by_cases hT : 0 < p.Theta_
  · rw [two_steps_after_spike origin n1 c w hnP.1 hrest (by rw [hnP.2.2.2]; exact hc)
      (by rw [hisyn, vector_resize_length]; exact hc) (by rw [eb, hclear]; simp)
      (fun j hj => by rw [eo j hj, hclear]) (by rw [eC]; rfl) (by rw [hnP.2.1]; exact hT),
      eV, hnP.2.1, hnP.2.2.1]
    split_ifs with hge
    · constructor
      · intro h1 h2
        exact h1 h2.2.2
      · intro h1 h2
        exact h1 ⟨hT, hge, h2⟩
    · constructor
      · intro _ h2
        exact hge h2.2.1
      · intro _
        exact mul_ne_zero hP (ne_of_gt hw)
  · have hlt := update_step_below_threshold origin 1 (update_step origin 0 n1)
      (by rw [(update_step_frame origin 0 n1).1, hnP.2.1, hnP.2.2.1]; exact hV)
    rw [(update_step_frame origin 0 n1).1, hnP.2.1] at hlt
    constructor
    · intro _ h2
      exact hT h2.1
    · intro _
      exact ne_of_lt (lt_of_lt_of_le hlt (not_lt.mp hT))

end single_spike

section single_spike_claims

/-- The cross propagator of the one-port fixture in the exact kernel, and a
lower bound for it. -/
theorem one_port_P21 :
    (calibrate (exact_kernel Real.exp)
        (Node.with_parameters (one_port : Parameters_ ℝ) 0)).V_.P21_syn_.getD 0 0 =
        2 * 10 / (250 * (10 - 2)) * (Real.exp (-(1 / 10) / 10) - Real.exp (-(1 / 10) / 2)) ∧
      (79 : ℝ) / 210000 ≤
        (calibrate (exact_kernel Real.exp)
          (Node.with_parameters (one_port : Parameters_ ℝ) 0)).V_.P21_syn_.getD 0 0 := by
  have h : (calibrate (exact_kernel Real.exp)
      (Node.with_parameters (one_port : Parameters_ ℝ) 0)).V_.P21_syn_.getD 0 0 =
      2 * 10 / (250 * (10 - 2)) * (Real.exp (-(1 / 10) / 10) - Real.exp (-(1 / 10) / 2)) := by
    rw [calibrate_P21 _ _ 0 Nat.zero_lt_one]
    rfl
  refine ⟨h, ?_⟩
  rw [h]
  have e1 : (99 : ℝ) / 100 ≤ Real.exp (-(1 / 10) / 10) := by
    have := Real.add_one_le_exp (-(1 / 10) / 10 : ℝ)
    linarith
  have e2 : Real.exp (-(1 / 10) / 2) ≤ (20 : ℝ) / 21 := by
    have h1 : (-(1 / 10) / 2 : ℝ) = -(1 / 20) := by norm_num
    rw [h1, Real.exp_neg]
    have h2 := Real.add_one_le_exp (1 / 20 : ℝ)
    have h3 : (0 : ℝ) < 1 / 20 + 1 := by norm_num
    calc (Real.exp (1 / 20))⁻¹ ≤ ((1 : ℝ) / 20 + 1)⁻¹ := inv_anti₀ h3 h2
      _ = 20 / 21 := by norm_num
  nlinarith

/-- C9, as stated, fails: on the default parameters with one port of 2 ms
(`V_reset_ = 0`, `Theta_ = 15`), calibrated in the exact kernel, a spike of
weight 100000 on port 1 at step 0 brings the evolved potential of step 1 above
the threshold; the node fires and the potential after the steps 0 and 1 is the
reset potential, `0`. -/
theorem strong_spike_resets_to_zero :
    (Parameters_.default : Parameters_ ℝ).set { tau_syn := some [2] } =
        (one_port, Except.ok 0) ∧
      (calibrate (exact_kernel Real.exp)
        (Node.with_parameters (one_port : Parameters_ ℝ) 0)).V_.P21_syn_.getD 0 0 ≠ 0 ∧
      ((handle_spike
          (calibrate (exact_kernel Real.exp) (Node.with_parameters (one_port : Parameters_ ℝ) 0))
          { rport := 1, delay := 1, rel_delivery_steps := 0, weight := 100000,
            multiplicity := 1 }).bind
        (update 1 0 0 2)).map (fun m => m.S_.V_m_) = some 0 := by
  obtain ⟨-, hb⟩ := one_port_P21
  have hpos : (0 : ℝ) < (calibrate (exact_kernel Real.exp)
      (Node.with_parameters (one_port : Parameters_ ℝ) 0)).V_.P21_syn_.getD 0 0 := by
    linarith
  refine ⟨?_, ne_of_gt hpos, ?_⟩
  · norm_num [one_port, Parameters_.default, Parameters_.set, Parameters_.set_head,
      Parameters_.set_tail, updateValue, tau_syn_loop]
  · obtain ⟨n1, m, h1, h2, h3⟩ := single_spike_V_m (exact_kernel Real.exp) 1 0
      (one_port : Parameters_ ℝ) 0 100000 0 rfl
      (by norm_num [one_port, Parameters_.default]) Nat.zero_lt_one (ne_of_gt hpos)
      (by norm_num) (by decide)
    have h1' : handle_spike
        (calibrate (exact_kernel Real.exp) (Node.with_parameters (one_port : Parameters_ ℝ) 0))
        { rport := 1, delay := 1, rel_delivery_steps := 0, weight := 100000,
          multiplicity := 1 } = some n1 := by
      rw [← h1]
      norm_num
    rw [h1', Option.some_bind, h2, Option.map_some']
    have : ¬ (m.S_.V_m_ ≠ 0) := by
      rw [h3, not_not]
      refine ⟨by norm_num [one_port, Parameters_.default], ?_,
        by norm_num [one_port, Parameters_.default]⟩
      have : (one_port : Parameters_ ℝ).Theta_ = 15 := by
        norm_num [one_port, Parameters_.default]
      rw [this]
      nlinarith
    rw [not_not.mp this]

/-- C9, amended: on parameters with `I_e_ = 0` and `V_reset_ < Theta_`, for the
node as constructed and calibrated, with `P21_syn_[ c ] ≠ 0`, after a single
spike of weight `w > 0` handled on port `c + 1` for step 0, `update` over the
steps 0 and 1 leaves a potential that is not zero, except in one case: the
threshold is above rest, `P21_syn_[ c ] * w` reaches the threshold, and the
reset potential equals the resting potential (`V_reset_ = 0`); then the node
fires at step 1 and the potential is `0`. -/
theorem single_spike_response (K : Kernel α) (min_delay origin : Int) (p : Parameters_ α)
    (current0 w : α) (c : Nat) (hI : p.I_e_ = 0) (hV : p.V_reset_ < p.Theta_)
    (hc : c < p.num_of_receptors_)
    (hP : (calibrate K (Node.with_parameters p current0)).V_.P21_syn_.getD c 0 ≠ 0)
    (hw : 0 < w) (hd : 0 < min_delay) :
    ∃ n1 m,
      handle_spike (calibrate K (Node.with_parameters p current0))
          { rport := (c : Int) + 1, delay := 1, rel_delivery_steps := 0, weight := w,
            multiplicity := 1 } = some n1 ∧
        update min_delay origin 0 2 n1 = some m ∧
        (m.S_.V_m_ ≠ 0 ↔
          ¬ (0 < p.Theta_ ∧
            p.Theta_ ≤ (calibrate K (Node.with_parameters p current0)).V_.P21_syn_.getD c 0 * w ∧
            p.V_reset_ = 0)) :=
  single_spike_V_m K min_delay origin p current0 w c hI hV hc hP hw hd

/-- C9 amended, at the one-port fixture in the exact kernel with a spike of
weight 1. -/
theorem single_spike_response_witness :
    (one_port : Parameters_ ℝ).V_reset_ < (one_port : Parameters_ ℝ).Theta_ ∧
      (calibrate (exact_kernel Real.exp)
        (Node.with_parameters (one_port : Parameters_ ℝ) 0)).V_.P21_syn_.getD 0 0 ≠ 0 ∧
      ∃ n1 m,
        handle_spike
            (calibrate (exact_kernel Real.exp)
              (Node.with_parameters (one_port : Parameters_ ℝ) 0))
            { rport := ((0 : Nat) : Int) + 1, delay := 1, rel_delivery_steps := 0, weight := 1,
              multiplicity := 1 } = some n1 ∧
          update 1 0 0 2 n1 = some m ∧
          (m.S_.V_m_ ≠ 0 ↔
            ¬ (0 < (one_port : Parameters_ ℝ).Theta_ ∧
              (one_port : Parameters_ ℝ).Theta_ ≤
                (calibrate (exact_kernel Real.exp)
                  (Node.with_parameters (one_port : Parameters_ ℝ) 0)).V_.P21_syn_.getD 0 0 * 1 ∧
              (one_port : Parameters_ ℝ).V_reset_ = 0)) :=
  have hV : (one_port : Parameters_ ℝ).V_reset_ < (one_port : Parameters_ ℝ).Theta_ := by
    norm_num [one_port, Parameters_.default]
  have hP : (calibrate (exact_kernel Real.exp)
      (Node.with_parameters (one_port : Parameters_ ℝ) 0)).V_.P21_syn_.getD 0 0 ≠ 0 := by
    have := one_port_P21.2
    intro h
    rw [h] at this
    norm_num at this
  ⟨hV, hP, single_spike_response (exact_kernel Real.exp) 1 0 (one_port : Parameters_ ℝ) 0 1 0 rfl
    hV Nat.zero_lt_one hP one_pos (by decide)⟩

end single_spike_claims

/-! ## Decay of the synaptic currents (C10) -/

section synaptic_decay

/-- The synaptic current of a port that the loop of `update` visits, after one
step: decayed by `P11_syn_`, plus what was staged for the step. -/
theorem update_step_i_syn_getD (origin lag : Int) (n : Node α) (c : Nat)
    (hc : c < n.P_.num_of_receptors_) (hl : c < n.S_.i_syn_.length) :
    (update_step origin lag n).S_.i_syn_.getD c 0 =
      n.S_.i_syn_.getD c 0 * n.V_.P11_syn_.getD c 0 +
        (n.B_.spikes_.getD c RingBuffer.clear).buffer_ lag := by
  rw [update_step_i_syn, synapse_loop_getD, if_pos ⟨Nat.zero_le _, by omega, hl⟩]

/-- With nothing staged on port `c` from step `lag` on, `k` steps multiply the
synaptic current of the port by the `k`-th power of its decay. -/
theorem update_loop_decay (origin : Int) (k : Nat) (lag : Int) (n : Node α) (c : Nat)
    (hc : c < n.P_.num_of_receptors_) (hl : c < n.S_.i_syn_.length)
    (hb : ∀ x, lag ≤ x → (n.B_.spikes_.getD c RingBuffer.clear).buffer_ x = 0) :
    (update_loop origin k lag n).S_.i_syn_.getD c 0 =
      n.S_.i_syn_.getD c 0 * n.V_.P11_syn_.getD c 0 ^ k := by
  induction k generalizing lag n with
  | zero => simp [update_loop]
  | succ k ih =>
    obtain ⟨f1, f2⟩ := update_step_frame origin lag n
    unfold update_loop
    rw [ih (lag + 1) (update_step origin lag n) (by rw [f1]; exact hc)
      (by rw [update_step_i_syn, (synapse_loop_length _ _ _ _ _).1]; exact hl)
      (by
        intro x hx
        rw [update_step_spikes, synapse_loop_buffer]
        split_ifs
        · rfl
        · exact hb x (by omega)),
      update_step_i_syn_getD origin lag n c hc hl, hb lag le_rfl, f2]
    ring

/-- A weight `w` staged on port `c` for step `lag`, on a port whose current is
zero and with nothing staged afterwards: `k` steps after the arrival step the
current is `w` times the `k`-th power of the decay. -/
theorem update_loop_trace (origin : Int) (k : Nat) (lag : Int) (n : Node α) (c : Nat) (w : α)
    (hc : c < n.P_.num_of_receptors_) (hl : c < n.S_.i_syn_.length)
    (h0 : n.S_.i_syn_.getD c 0 = 0)
    (hw : (n.B_.spikes_.getD c RingBuffer.clear).buffer_ lag = w)
    (hb : ∀ x, lag < x → (n.B_.spikes_.getD c RingBuffer.clear).buffer_ x = 0) :
    (update_loop origin (k + 1) lag n).S_.i_syn_.getD c 0 = w * n.V_.P11_syn_.getD c 0 ^ k := by
  obtain ⟨f1, f2⟩ := update_step_frame origin lag n
  unfold update_loop
  rw [update_loop_decay origin k (lag + 1) (update_step origin lag n) c (by rw [f1]; exact hc)
      (by rw [update_step_i_syn, (synapse_loop_length _ _ _ _ _).1]; exact hl)
      (by
        intro x hx
        rw [update_step_spikes, synapse_loop_buffer]
        split_ifs
        · rfl
        · exact hb x (by omega)),
    update_step_i_syn_getD origin lag n c hc hl, h0, hw, f2]
  simp

/-- The decay that `calibrate` computes with the real exponential, for a
positive step and a positive time constant, lies strictly between 0 and 1. -/
theorem calibrate_P11_real (K : Kernel ℝ) (hexp : K.exp = Real.exp) (hh : 0 < K.h)
    (n0 : Node ℝ) (c : Nat) (hc : c < n0.P_.num_of_receptors_)
    (hτ : 0 < n0.P_.tau_syn_.getD c 0) :
    (calibrate K n0).V_.P11_syn_.getD c 0 = Real.exp (-K.h / n0.P_.tau_syn_.getD c 0) ∧
      0 < (calibrate K n0).V_.P11_syn_.getD c 0 ∧
      (calibrate K n0).V_.P11_syn_.getD c 0 < 1 := by
  have h : (calibrate K n0).V_.P11_syn_.getD c 0 =
      Real.exp (-K.h / n0.P_.tau_syn_.getD c 0) := by
    rw [calibrate_P11 K n0 c hc, hexp]
  refine ⟨h, ?_, ?_⟩
  · rw [h]; exact Real.exp_pos _
  · rw [h, Real.exp_lt_one_iff]
    exact div_neg_of_neg_of_pos (neg_neg_of_pos hh) hτ

/-- C10: with the real exponential, a step `h > 0` and a time constant
`tau_syn_[ c ] > 0`, the decay `P11_syn_[ c ]` set by `calibrate` is
`exp( -h / tau_syn_[ c ] )`, strictly between 0 and 1.  For every node with that
table, whether refractory or not, one step of `update` at which nothing is
staged for port `c` multiplies `i_syn_[ c ]` by the decay: the sign is kept, the
absolute value does not grow, and it shrinks strictly when the current is not
zero.  After a single weight `w` staged on a port at zero current, the current
`k` steps after the arrival step is `w * P11_syn_[ c ] ^ k`; this sequence tends
to 0 and its absolute value is antitone. -/
theorem synaptic_current_decay (K : Kernel ℝ) (hexp : K.exp = Real.exp) (hh : 0 < K.h)
    (n0 : Node ℝ) (c : Nat) (hc : c < n0.P_.num_of_receptors_)
    (hτ : 0 < n0.P_.tau_syn_.getD c 0) :
    (calibrate K n0).V_.P11_syn_.getD c 0 = Real.exp (-K.h / n0.P_.tau_syn_.getD c 0) ∧
      (∀ (origin lag : Int) (m : Node ℝ), m.V_ = (calibrate K n0).V_ →
        c < m.P_.num_of_receptors_ → c < m.S_.i_syn_.length →
        (m.B_.spikes_.getD c RingBuffer.clear).buffer_ lag = 0 →
        (update_step origin lag m).S_.i_syn_.getD c 0 =
            m.S_.i_syn_.getD c 0 * (calibrate K n0).V_.P11_syn_.getD c 0 ∧
          SignType.sign ((update_step origin lag m).S_.i_syn_.getD c 0) =
            SignType.sign (m.S_.i_syn_.getD c 0) ∧
          |(update_step origin lag m).S_.i_syn_.getD c 0| ≤ |m.S_.i_syn_.getD c 0| ∧
          (m.S_.i_syn_.getD c 0 ≠ 0 →
            |(update_step origin lag m).S_.i_syn_.getD c 0| < |m.S_.i_syn_.getD c 0|)) ∧
      (∀ (origin lag : Int) (m : Node ℝ) (w : ℝ) (k : Nat), m.V_ = (calibrate K n0).V_ →
        c < m.P_.num_of_receptors_ → c < m.S_.i_syn_.length →
        m.S_.i_syn_.getD c 0 = 0 →
        (m.B_.spikes_.getD c RingBuffer.clear).buffer_ lag = w →
        (∀ x, lag < x → (m.B_.spikes_.getD c RingBuffer.clear).buffer_ x = 0) →
        (update_loop origin (k + 1) lag m).S_.i_syn_.getD c 0 =
          w * (calibrate K n0).V_.P11_syn_.getD c 0 ^ k) ∧
      ∀ w : ℝ,
        Filter.Tendsto (fun k : Nat => w * (calibrate K n0).V_.P11_syn_.getD c 0 ^ k)
            Filter.atTop (nhds 0) ∧
          Antitone (fun k : Nat => |w * (calibrate K n0).V_.P11_syn_.getD c 0 ^ k|) := by
  obtain ⟨hd, hpos, hlt⟩ := calibrate_P11_real K hexp hh n0 c hc hτ
  refine ⟨hd, ?_, ?_, ?_⟩
  · intro origin lag m hV hcm hl hb
    have hstep : (update_step origin lag m).S_.i_syn_.getD c 0 =
        m.S_.i_syn_.getD c 0 * (calibrate K n0).V_.P11_syn_.getD c 0 := by
      rw [update_step_i_syn_getD origin lag m c hcm hl, hb, hV, add_zero]
    refine ⟨hstep, ?_, ?_, ?_⟩
    · rw [hstep, sign_mul, sign_pos hpos, mul_one]
    · rw [hstep, abs_mul, abs_of_pos hpos]
      exact mul_le_of_le_one_right (abs_nonneg _) (le_of_lt hlt)
    · intro hne
      rw [hstep, abs_mul, abs_of_pos hpos]
      exact mul_lt_of_lt_one_right (abs_pos.mpr hne) hlt
  · intro origin lag m w k hV hcm hl h0 hw hb
    rw [update_loop_trace origin k lag m c w hcm hl h0 hw hb, hV]
  · intro w
    constructor
    · have := (tendsto_pow_atTop_nhds_zero_of_lt_one (le_of_lt hpos) hlt).const_mul w
      simpa using this
    · intro a b hab
      show |w * (calibrate K n0).V_.P11_syn_.getD c 0 ^ b| ≤
        |w * (calibrate K n0).V_.P11_syn_.getD c 0 ^ a|
      rw [abs_mul, abs_mul, abs_of_pos (pow_pos hpos b), abs_of_pos (pow_pos hpos a)]
      exact mul_le_mul_of_nonneg_left (pow_le_pow_of_le_one (le_of_lt hpos) (le_of_lt hlt) hab)
        (abs_nonneg _)

/-- C10 at the one-port fixture (`tau_syn_ = [2]`) in the exact kernel
(`h = 0.1`): the decay of port 1 is `exp( -0.1 / 2 )`. -/
theorem synaptic_current_decay_witness :
    (0 : ℝ) < (exact_kernel Real.exp).h ∧
      (0 : ℝ) < (Node.with_parameters (one_port : Parameters_ ℝ) 0).P_.tau_syn_.getD 0 0 ∧
      (calibrate (exact_kernel Real.exp)
        (Node.with_parameters (one_port : Parameters_ ℝ) 0)).V_.P11_syn_.getD 0 0 =
        Real.exp (-(exact_kernel Real.exp).h /
          (Node.with_parameters (one_port : Parameters_ ℝ) 0).P_.tau_syn_.getD 0 0) :=
  have hh : (0 : ℝ) < (exact_kernel Real.exp).h := by
    norm_num [exact_kernel]
  have hτ : (0 : ℝ) < (Node.with_parameters (one_port : Parameters_ ℝ) 0).P_.tau_syn_.getD 0 0 := by
    norm_num [Node.with_parameters, one_port]
  ⟨hh, hτ, (synaptic_current_decay (exact_kernel Real.exp) rfl hh
    (Node.with_parameters (one_port : Parameters_ ℝ) 0) 0 Nat.zero_lt_one hτ).1⟩

end synaptic_decay

/-! ## Connection handshake (C11) -/

section handshake

omit [LinearOrderedField α]

/-- C11: `handles_test_event` for a `SpikeEvent` returns the requested port
unchanged and sets `has_connections_`, changing nothing else, for every
requested port with `1 ≤ port ≤ num_of_receptors_`; for every other port (in
particular for every port when there is no receptor) it throws
`IncompatibleReceptorType` and leaves the node as it was. -/
theorem handles_test_event_spec (n : Node α) (receptor_type : Int) :
    (1 ≤ receptor_type ∧ receptor_type ≤ (n.P_.num_of_receptors_ : Int) →
        handles_test_event n receptor_type =
          ({ n with P_ := { n.P_ with has_connections_ := true } }, some receptor_type)) ∧
      (¬ (1 ≤ receptor_type ∧ receptor_type ≤ (n.P_.num_of_receptors_ : Int)) →
        handles_test_event n receptor_type = (n, none)) ∧
      (n.P_.num_of_receptors_ = 0 → handles_test_event n receptor_type = (n, none)) := by
  refine ⟨?_, ?_, ?_⟩
  · intro h
    unfold handles_test_event
    rw [if_neg (by omega)]
  · intro h
    unfold handles_test_event
    rw [if_pos (by omega)]
  · intro h
    unfold handles_test_event
    rw [if_pos (by omega)]

/-- C11 at `driven_node`, which has one port: port 1 is accepted and only
`has_connections_` changes. -/
theorem handles_test_event_spec_witness :
    (1 : Int) ≤ 1 ∧ (1 : Int) ≤ (driven_node.P_.num_of_receptors_ : Int) ∧
      handles_test_event driven_node 1 =
        ({ driven_node with P_ := { driven_node.P_ with has_connections_ := true } }, some 1) :=
  have h : (1 : Int) ≤ 1 ∧ (1 : Int) ≤ (driven_node.P_.num_of_receptors_ : Int) := by
    constructor <;> decide
  ⟨h.1, h.2, (handles_test_event_spec driven_node 1).1 h⟩

end handshake

/-! ## The integrating update (C13) and the latched current (C16) -/

section integrating_update

/-- The loop of the integrating branch adds to `V_m_` the products
`P21_syn_[ i ] * i_syn_[ i ]` and to `current_` the currents `i_syn_[ i ]` of the
ports that it visits. -/
theorem membrane_loop_sum (P21 isyn : List α) (k i : Nat) (acc : α × α) :
    membrane_loop P21 isyn k i acc =
      (acc.1 + Finset.sum (Finset.range k) (fun j => P21.getD (i + j) 0 * isyn.getD (i + j) 0),
        acc.2 + Finset.sum (Finset.range k) (fun j => isyn.getD (i + j) 0)) := by
  induction k generalizing i acc with
  | zero =>
    rw [Finset.range_zero, Finset.sum_empty, Finset.sum_empty, add_zero, add_zero]
    rfl
  | succ k ih =>
    unfold membrane_loop
    rw [ih, Finset.sum_range_succ', Finset.sum_range_succ']
    have e1 : ∀ j, i + 1 + j = i + (j + 1) := fun j => by omega
    simp only [e1, Nat.add_zero]
    refine Prod.ext ?_ ?_
    · simp only
      ring
    · simp only
      ring

/-- The potential that the integrating branch computes, written out. -/
theorem evolved_V_m_eq (n : Node α) :
    evolved_V_m n =
      n.S_.V_m_ * n.V_.P22_ + (n.P_.I_e_ + n.S_.I_const_) * n.V_.P20_ + synaptic_drive n := by
  unfold evolved_V_m synaptic_drive
  rw [membrane_loop_sum]
  simp only [Nat.zero_add]

/-- C13: when a step starts with `refractory_steps_ = 0`, the potential that
the threshold test of this step sees is
`V_m_ * P22_ + ( I_e_ + I_const_ ) * P20_` plus the sum over the ports of
`P21_syn_[ c ] * i_syn_[ c ]`, with the synaptic currents that the node holds at
the entry of the step; the potential after the step is this value, or `V_reset_`
when it reaches the threshold.  Without ports the sum is empty and the update
is that of the membrane alone. -/
theorem integrating_update (origin lag : Int) (n : Node α)
    (h0 : n.S_.refractory_steps_ = 0) :
    (update_membrane n).S_.V_m_ =
        n.S_.V_m_ * n.V_.P22_ + (n.P_.I_e_ + n.S_.I_const_) * n.V_.P20_ +
          Finset.sum (Finset.range n.P_.num_of_receptors_)
            (fun c => n.V_.P21_syn_.getD c 0 * n.S_.i_syn_.getD c 0) ∧
      (update_step origin lag n).S_.V_m_ =
        (if n.S_.V_m_ * n.V_.P22_ + (n.P_.I_e_ + n.S_.I_const_) * n.V_.P20_ +
            Finset.sum (Finset.range n.P_.num_of_receptors_)
              (fun c => n.V_.P21_syn_.getD c 0 * n.S_.i_syn_.getD c 0) ≥ n.P_.Theta_
          then n.P_.V_reset_
          else n.S_.V_m_ * n.V_.P22_ + (n.P_.I_e_ + n.S_.I_const_) * n.V_.P20_ +
            Finset.sum (Finset.range n.P_.num_of_receptors_)
              (fun c => n.V_.P21_syn_.getD c 0 * n.S_.i_syn_.getD c 0)) ∧
      (n.P_.num_of_receptors_ = 0 →
        (update_membrane n).S_.V_m_ =
          n.S_.V_m_ * n.V_.P22_ + (n.P_.I_e_ + n.S_.I_const_) * n.V_.P20_) := by
  have h : (update_membrane n).S_.V_m_ =
      n.S_.V_m_ * n.V_.P22_ + (n.P_.I_e_ + n.S_.I_const_) * n.V_.P20_ +
        Finset.sum (Finset.range n.P_.num_of_receptors_)
          (fun c => n.V_.P21_syn_.getD c 0 * n.S_.i_syn_.getD c 0) := by
    rw [update_membrane_V_m, if_pos h0, evolved_V_m_eq]
    rfl
  refine ⟨h, ?_, ?_⟩
  · rw [update_step_V_m, h]
  · intro hn
    rw [h, hn, Finset.range_zero, Finset.sum_empty, add_zero]

/-- C13 at `driven_node`: the evolved potential is
`0 * 99/100 + ( 0 + 100 ) * 1/2500 + 1/2500 * 8`. -/
theorem integrating_update_witness :
    driven_node.S_.refractory_steps_ = 0 ∧
      (update_membrane driven_node).S_.V_m_ = 27 / 625 :=
  have h0 : driven_node.S_.refractory_steps_ = 0 := rfl
  ⟨h0, by
    rw [(integrating_update 0 0 driven_node h0).1]
    norm_num [driven_node, one_port, Parameters_.default, Node.default, State_.default,
      Finset.sum_range_succ]⟩

end integrating_update

/-! ## Synaptic currents do not depend on the membrane (C14) -/

section synaptic_independence

/-- The synaptic currents and the spike buffers after `k` steps are the same for
two nodes that agree on `i_syn_`, `P11_syn_` and `B_.spikes_` and whose
`i_syn_` has one entry per receptor. -/
theorem update_loop_i_syn_congr (o1 o2 : Int) (k : Nat) (lag : Int) (m1 m2 : Node α)
    (hi : m1.S_.i_syn_ = m2.S_.i_syn_) (hP : m1.V_.P11_syn_ = m2.V_.P11_syn_)
    (hs : m1.B_.spikes_ = m2.B_.spikes_)
    (h1 : m1.S_.i_syn_.length = m1.P_.num_of_receptors_)
    (h2 : m2.S_.i_syn_.length = m2.P_.num_of_receptors_) :
    (update_loop o1 k lag m1).S_.i_syn_ = (update_loop o2 k lag m2).S_.i_syn_ := by
  induction k generalizing lag m1 m2 with
  | zero => exact hi
  | succ k ih =>
    have hn : m1.P_.num_of_receptors_ = m2.P_.num_of_receptors_ := by
      rw [← h1, ← h2, hi]
    obtain ⟨a1, a2⟩ := update_step_frame o1 lag m1
    obtain ⟨b1, b2⟩ := update_step_frame o2 lag m2
    have e1 : (update_step o1 lag m1).S_.i_syn_ = (update_step o2 lag m2).S_.i_syn_ := by
      rw [update_step_i_syn, update_step_i_syn, hi, hP, hs, hn]
    have e2 : (update_step o1 lag m1).B_.spikes_ = (update_step o2 lag m2).B_.spikes_ := by
      rw [update_step_spikes, update_step_spikes, hi, hP, hs, hn]
    unfold update_loop
    refine ih (lag + 1) _ _ e1 (by rw [a2, b2, hP]) e2 ?_ ?_
    · rw [update_step_i_syn, (synapse_loop_length _ _ _ _ _).1, a1]
      exact h1
    · rw [update_step_i_syn, (synapse_loop_length _ _ _ _ _).1, b1]
      exact h2

/-- C14: for every node and every step at lag `t`, the synaptic current of each
port `c` (below `num_of_receptors_`, inside `i_syn_`) after the step is
`i_syn_[ c ] * P11_syn_[ c ]` plus what the buffer of the port has staged for
`t`, whatever the potential, the refractory counter and the outcome of the
threshold test are.  Two nodes that agree on `i_syn_`, on `P11_syn_` and on
`B_.spikes_`, each with one entry of `i_syn_` per receptor as `calibrate` sizes
it, have the same `i_syn_` after any number of steps, even when every other
field of state, table, parameters and buffers differs and the origins
differ. -/
theorem synaptic_currents_independent :
    (∀ (origin lag : Int) (n : Node α) (c : Nat), c < n.P_.num_of_receptors_ →
        c < n.S_.i_syn_.length →
        (update_step origin lag n).S_.i_syn_.getD c 0 =
          n.S_.i_syn_.getD c 0 * n.V_.P11_syn_.getD c 0 +
            (n.B_.spikes_.getD c RingBuffer.clear).buffer_ lag) ∧
      ∀ (o1 o2 : Int) (k : Nat) (lag : Int) (m1 m2 : Node α),
        m1.S_.i_syn_ = m2.S_.i_syn_ → m1.V_.P11_syn_ = m2.V_.P11_syn_ →
        m1.B_.spikes_ = m2.B_.spikes_ →
        m1.S_.i_syn_.length = m1.P_.num_of_receptors_ →
        m2.S_.i_syn_.length = m2.P_.num_of_receptors_ →
        (update_loop o1 k lag m1).S_.i_syn_ = (update_loop o2 k lag m2).S_.i_syn_ :=
  ⟨fun origin lag n c hc hl => update_step_i_syn_getD origin lag n c hc hl,
    fun o1 o2 k lag m1 m2 hi hP hs h1 h2 =>
      update_loop_i_syn_congr o1 o2 k lag m1 m2 hi hP hs h1 h2⟩

/-- C14 at `driven_node` (current 8 pA, decay 19/20, 3 pA staged for step 0):
the current after the step at lag 0 is `8 * 19/20 + 3`, and it is the same for
the node that differs in potential, refractory counter and latched current. -/
theorem synaptic_currents_independent_witness :
    (update_step 0 0 driven_node).S_.i_syn_.getD 0 0 = 53 / 5 ∧
      (update_loop 0 1 0 driven_node).S_.i_syn_ =
        (update_loop 7 1 0
          { driven_node with
            S_ :=
              { driven_node.S_ with
                V_m_ := 40, refractory_steps_ := 5, I_const_ := 0 } }).S_.i_syn_ :=
  ⟨((@synaptic_currents_independent ℚ _).1 0 0 driven_node 0 (by decide) (by decide)).trans
      (by norm_num [driven_node, RingBuffer.add_value, RingBuffer.clear, State_.default]),
    (@synaptic_currents_independent ℚ _).2 0 7 1 0 driven_node _ rfl rfl rfl rfl rfl⟩

end synaptic_independence

/-! ## Refractory steps send nothing (C15) and the logged potential (C19) -/

section refractory_invariant

theorem handle_spike_frame (n m : Node α) (e : SpikeEvent α) (h : handle_spike n e = some m) :
    m.P_ = n.P_ ∧ m.S_ = n.S_ ∧ m.V_ = n.V_ ∧ m.sent_ = n.sent_ := by
  unfold handle_spike at h
  split_ifs at h
  simp only [Option.some.injEq] at h
  subst h
  exact ⟨rfl, rfl, rfl, rfl⟩

theorem handle_current_frame (n m : Node α) (e : CurrentEvent α)
    (h : handle_current n e = some m) :
    m.P_ = n.P_ ∧ m.S_ = n.S_ ∧ m.V_ = n.V_ ∧ m.sent_ = n.sent_ := by
  unfold handle_current at h
  split_ifs at h
  simp only [Option.some.injEq] at h
  subst h
  exact ⟨rfl, rfl, rfl, rfl⟩

/-- Along a run the reset potential and the threshold are those of the start,
and a node with a positive refractory counter sits at the reset potential. -/
theorem run_invariant (start n : Node α) (h0 : start.S_.refractory_steps_ = 0)
    (hr : Run start n) :
    n.P_.V_reset_ = start.P_.V_reset_ ∧ n.P_.Theta_ = start.P_.Theta_ ∧
      (0 < n.S_.refractory_steps_ → n.S_.V_m_ = start.P_.V_reset_) := by
  induction hr with
  | init =>
    refine ⟨rfl, rfl, ?_⟩
    intro h
    rw [h0] at h
    exact absurd h (lt_irrefl _)
  | step origin lag n _ ih =>
    obtain ⟨i1, i2, i3⟩ := ih
    obtain ⟨f1, -⟩ := update_step_frame origin lag n
    refine ⟨by rw [f1, i1], by rw [f1, i2], ?_⟩
    rw [update_step_refractory, update_step_V_m]
    split_ifs with hs
    · intro _
      exact i1
    · rw [update_membrane_refractory, update_membrane_V_m]
      split_ifs with hz
      · intro h
        exact absurd h (lt_irrefl _)
      · intro h
        exact i3 (by omega)
  | recalibrate K n _ ih =>
    obtain ⟨i1, i2, i3⟩ := ih
    obtain ⟨c1, -, c3, -, c5, c6, -⟩ := calibrate_frame K n
    rw [c1, c3, c5, c6]
    exact ⟨i1, i2, i3⟩
  | spike e n m _ h ih =>
    obtain ⟨a, b, -, -⟩ := handle_spike_frame n m e h
    rw [a, b]
    exact ih
  | current e n m _ h ih =>
    obtain ⟨a, b, -, -⟩ := handle_current_frame n m e h
    rw [a, b]
    exact ih

/-- C15: in every run that starts from the node as constructed with parameters
`p`, `V_reset_ < Theta_`, and calibrated, and that consists of steps of `update`,
handled events and further calibrations, the reset potential and the threshold
stay those of `p`,
every node with `refractory_steps_ > 0` has `V_m_ = V_reset_`, and a step that
starts with `refractory_steps_ > 0` sends no spike event and records no spike
time. -/
theorem no_spike_while_refractory (K : Kernel α) (p : Parameters_ α) (current0 : α)
    (hV : p.V_reset_ < p.Theta_) (n : Node α)
    (hr : Run (calibrate K (Node.with_parameters p current0)) n) :
    n.P_.V_reset_ = p.V_reset_ ∧ n.P_.Theta_ = p.Theta_ ∧
      (0 < n.S_.refractory_steps_ → n.S_.V_m_ = p.V_reset_) ∧
      (0 < n.S_.refractory_steps_ → ∀ origin lag : Int,
        (update_step origin lag n).sent_ = n.sent_ ∧
          (update_step origin lag n).spiketimes_ = n.spiketimes_) := by
  obtain ⟨i1, i2, i3⟩ := run_invariant (calibrate K (Node.with_parameters p current0)) n rfl hr
  have i1' : n.P_.V_reset_ = p.V_reset_ := i1
  have i2' : n.P_.Theta_ = p.Theta_ := i2
  have i3' : 0 < n.S_.refractory_steps_ → n.S_.V_m_ = p.V_reset_ := i3
  refine ⟨i1', i2', i3', ?_⟩
  intro h origin lag
  have hne : n.S_.refractory_steps_ ≠ 0 := ne_of_gt h
  have hno : ¬ (update_membrane n).S_.V_m_ ≥ n.P_.Theta_ := by
    rw [update_membrane_V_m, if_neg hne, i3' h, i2']
    exact not_le.mpr hV
  rw [update_step_sent, update_step_spiketimes, if_neg hno, if_neg hno]
  exact ⟨rfl, rfl⟩

/-- The node constructed with the parameters `low_threshold` and calibrated in
the exact kernel fires at the step at lag 0: afterwards it has 20 refractory
steps left (`t_ref_ = 2` at a resolution of 0.1 ms) and one spike event sent. -/
theorem low_threshold_first_step :
    (update_step 0 0
        (calibrate (exact_kernel Real.exp)
          (Node.with_parameters (low_threshold : Parameters_ ℝ) 0))).S_.refractory_steps_ = 20 ∧
      (update_step 0 0
        (calibrate (exact_kernel Real.exp)
          (Node.with_parameters (low_threshold : Parameters_ ℝ) 0))).sent_ = [0] := by
  have hI : (calibrate (exact_kernel Real.exp)
      (Node.with_parameters (low_threshold : Parameters_ ℝ) 0)).P_.I_e_ = 0 := rfl
  have hr : (calibrate (exact_kernel Real.exp)
      (Node.with_parameters (low_threshold : Parameters_ ℝ) 0)).at_rest := by
    simp [Node.at_rest, calibrate, Node.with_parameters, Node.default, State_.default,
      low_threshold, Parameters_.default, vector_resize]
  have hth : (0 : ℝ) ≥ (calibrate (exact_kernel Real.exp)
      (Node.with_parameters (low_threshold : Parameters_ ℝ) 0)).P_.Theta_ := by
    norm_num [calibrate, Node.with_parameters, low_threshold]
  have hR : (calibrate (exact_kernel Real.exp)
      (Node.with_parameters (low_threshold : Parameters_ ℝ) 0)).V_.RefractoryCounts_ = 20 := by
    show round ((2 : ℝ) / (1 / 10)) = 20
    have e : (2 : ℝ) / (1 / 10) = ((20 : ℤ) : ℝ) := by norm_num
    rw [e, round_intCast]
  constructor
  · rw [update_step_refractory, at_rest_membrane _ hI hr, if_pos hth, hR]
  · rw [update_step_sent, at_rest_membrane _ hI hr, if_pos hth]
    rfl

/-- C15 at a refractory node of a run: the node constructed with the parameters
`low_threshold` (`V_reset_ = -20 < Theta_ = -10`) and calibrated in the exact
kernel fires at the step at lag 0 and then has 20 refractory steps left; it
sits at the reset potential, and the step at lag 1 sends nothing. -/
theorem no_spike_while_refractory_witness :
    (low_threshold : Parameters_ ℝ).V_reset_ < (low_threshold : Parameters_ ℝ).Theta_ ∧
      0 < (update_step 0 0
        (calibrate (exact_kernel Real.exp)
          (Node.with_parameters (low_threshold : Parameters_ ℝ) 0))).S_.refractory_steps_ ∧
      (update_step 0 0
        (calibrate (exact_kernel Real.exp)
          (Node.with_parameters (low_threshold : Parameters_ ℝ) 0))).S_.V_m_ =
        (low_threshold : Parameters_ ℝ).V_reset_ ∧
      (update_step 0 1
        (update_step 0 0
          (calibrate (exact_kernel Real.exp)
            (Node.with_parameters (low_threshold : Parameters_ ℝ) 0)))).sent_ =
        (update_step 0 0
          (calibrate (exact_kernel Real.exp)
            (Node.with_parameters (low_threshold : Parameters_ ℝ) 0))).sent_ :=
  have hV :
      (low_threshold : Parameters_ ℝ).V_reset_ < (low_threshold : Parameters_ ℝ).Theta_ := by
    norm_num [low_threshold]
  have hpos : 0 < (update_step 0 0
      (calibrate (exact_kernel Real.exp)
        (Node.with_parameters (low_threshold : Parameters_ ℝ) 0))).S_.refractory_steps_ := by
    rw [low_threshold_first_step.1]
    decide
  have h := no_spike_while_refractory (exact_kernel Real.exp) (low_threshold : Parameters_ ℝ) 0
    hV _ (Run.step 0 0 _ Run.init)
  ⟨hV, hpos, h.2.2.1 hpos, (h.2.2.2 hpos 0 1).1⟩

theorem update_step_logger (origin lag : Int) (n : Node α) :
    (update_step origin lag n).B_.logger_ =
      n.B_.logger_ ++ [(origin + lag, (update_step origin lag n).S_.V_m_ + n.P_.E_L_)] := by
  obtain ⟨h1, -, h3, -⟩ := update_membrane_frame n
  unfold update_step update_log update_current update_threshold update_synapses Node.get_V_m_
  simp only [h1, h3]
  split_ifs <;> rfl

/-- C19: with `V_reset_ < Theta_`, for every table, every state (also one whose
potential starts at or above the threshold) and every buffer content, the
potential after one step of `update` is strictly below `Theta_`; the record
handed to the logger at that step is this potential plus `E_L_`, which is
strictly below the threshold `V_th = Theta_ + E_L_` that `get` shows. -/
theorem logged_below_threshold (origin lag : Int) (n : Node α)
    (hV : n.P_.V_reset_ < n.P_.Theta_) :
    (update_step origin lag n).S_.V_m_ < n.P_.Theta_ ∧
      (update_step origin lag n).B_.logger_ =
        n.B_.logger_ ++ [(origin + lag, (update_step origin lag n).S_.V_m_ + n.P_.E_L_)] ∧
      (update_step origin lag n).S_.V_m_ + n.P_.E_L_ < n.P_.get.V_th := by
  have h := update_step_below_threshold origin lag n hV
  exact ⟨h, update_step_logger origin lag n, add_lt_add_right h _⟩

/-- C19 at `hot_node`, which starts 20 mV above rest with a threshold of
15 mV. -/
theorem logged_below_threshold_witness :
    hot_node.P_.V_reset_ < hot_node.P_.Theta_ ∧
      (update_step 0 0 hot_node).S_.V_m_ < hot_node.P_.Theta_ :=
  have hV : hot_node.P_.V_reset_ < hot_node.P_.Theta_ := by
    norm_num [hot_node, Node.default, Parameters_.default]
  ⟨hV, (logged_below_threshold 0 0 hot_node hV).1⟩

end refractory_invariant

/-! ## Sizes after `calibrate` (C17) -/

section calibrate_sizes

theorem receptor_types_loop_length (k i : Nat) (v : List Int) :
    (receptor_types_loop k i v).length = v.length := by
  induction k generalizing i v with
  | zero => rfl
  | succ k ih =>
    unfold receptor_types_loop
    rw [ih, List.length_set]

theorem receptor_types_loop_getD (k i : Nat) (v : List Int) (j : Nat) :
    (receptor_types_loop k i v).getD j 0 =
      if i ≤ j ∧ j < i + k ∧ j < v.length then (j : Int) + 1 else v.getD j 0 := by
  induction k generalizing i v with
  | zero =>
    have : ¬ (i ≤ j ∧ j < i + 0 ∧ j < v.length) := by omega
    rw [if_neg this]
    rfl
  | succ k ih =>
    unfold receptor_types_loop
    rw [ih]
    simp only [List.length_set, getD_set]
    by_cases hij : i = j
    · subst hij
      have h1 : ¬ (i + 1 ≤ i ∧ i < i + 1 + k ∧ i < v.length) := by omega
      by_cases hl : i < v.length
      · have h2 : i ≤ i ∧ i < i + (k + 1) ∧ i < v.length := by omega
        rw [if_neg h1, if_pos ⟨rfl, hl⟩, if_pos h2]
      · have h2 : ¬ (i ≤ i ∧ i < i + (k + 1) ∧ i < v.length) := by omega
        rw [if_neg h1, if_neg (fun h => hl h.2), if_neg h2]
    · by_cases h1 : i + 1 ≤ j ∧ j < i + 1 + k ∧ j < v.length
      · have h2 : i ≤ j ∧ j < i + (k + 1) ∧ j < v.length := by omega
        rw [if_pos h1, if_pos h2]
      · have h2 : ¬ (i ≤ j ∧ j < i + (k + 1) ∧ j < v.length) := by omega
        rw [if_neg h1, if_neg h2, if_neg (fun h => hij h.1)]

/-- C17: after `calibrate` the list of port identifiers, `P11_syn_`, `P21_syn_`,
`i_syn_` and the list of spike buffers all have `num_of_receptors_` entries, and
the entry `i` of the port identifiers is `i + 1`; hence for every port that
`handles_test_event` accepts on the calibrated node, the index `port - 1` that
`handle( SpikeEvent& )` and `update` use is not negative and lies inside each of
these lists. -/
theorem calibrate_sizes (K : Kernel α) (n : Node α) :
    (calibrate K n).P_.num_of_receptors_ = n.P_.num_of_receptors_ ∧
      (calibrate K n).P_.receptor_types_.length = n.P_.num_of_receptors_ ∧
      (calibrate K n).V_.P11_syn_.length = n.P_.num_of_receptors_ ∧
      (calibrate K n).V_.P21_syn_.length = n.P_.num_of_receptors_ ∧
      (calibrate K n).S_.i_syn_.length = n.P_.num_of_receptors_ ∧
      (calibrate K n).B_.spikes_.length = n.P_.num_of_receptors_ ∧
      (∀ i, i < n.P_.num_of_receptors_ →
        (calibrate K n).P_.receptor_types_.getD i 0 = (i : Int) + 1) ∧
      ∀ port accepted : Int, (handles_test_event (calibrate K n) port).2 = some accepted →
        accepted = port ∧ 0 ≤ port - 1 ∧
          (port - 1).toNat < (calibrate K n).P_.receptor_types_.length ∧
          (port - 1).toNat < (calibrate K n).V_.P11_syn_.length ∧
          (port - 1).toNat < (calibrate K n).V_.P21_syn_.length ∧
          (port - 1).toNat < (calibrate K n).S_.i_syn_.length ∧
          (port - 1).toNat < (calibrate K n).B_.spikes_.length := by
  have hR : (calibrate K n).P_.receptor_types_.length = n.P_.num_of_receptors_ := by
    show (receptor_types_loop _ 0 (vector_resize _ _ 0)).length = _
    rw [receptor_types_loop_length, vector_resize_length]
  have h11 : (calibrate K n).V_.P11_syn_.length = n.P_.num_of_receptors_ := by
    unfold calibrate
    simp only
    rw [(calibrate_loop_length _ _ _ _ _).1, vector_resize_length]
  have h21 : (calibrate K n).V_.P21_syn_.length = n.P_.num_of_receptors_ := by
    unfold calibrate
    simp only
    rw [(calibrate_loop_length _ _ _ _ _).2.1, vector_resize_length]
  have hI : (calibrate K n).S_.i_syn_.length = n.P_.num_of_receptors_ := by
    rw [calibrate_i_syn, vector_resize_length]
  have hS := calibrate_spikes_length K n
  refine ⟨rfl, hR, h11, h21, hI, hS, ?_, ?_⟩
  · intro i hi
    show (receptor_types_loop _ 0 (vector_resize _ _ 0)).getD i 0 = _
    rw [receptor_types_loop_getD,
      if_pos ⟨Nat.zero_le _, by omega, by rw [vector_resize_length]; exact hi⟩]
  · intro port accepted h
    have hnum : (calibrate K n).P_.num_of_receptors_ = n.P_.num_of_receptors_ := rfl
    unfold handles_test_event at h
    split_ifs at h with hc
    simp only [Option.some.injEq] at h
    rw [hnum] at hc
    rw [hR, h11, h21, hI, hS]
    refine ⟨h.symm, by omega, ?_, ?_, ?_, ?_, ?_⟩ <;> omega

/-- C17 at the one-port node in the exact kernel: one spike buffer, and port 1
has identifier 1. -/
theorem calibrate_sizes_witness :
    (calibrate (exact_kernel Real.exp)
        (Node.with_parameters (one_port : Parameters_ ℝ) 0)).B_.spikes_.length = 1 ∧
      (calibrate (exact_kernel Real.exp)
        (Node.with_parameters (one_port : Parameters_ ℝ) 0)).P_.receptor_types_.getD 0 0 = 1 :=
  ⟨(calibrate_sizes (exact_kernel Real.exp)
      (Node.with_parameters (one_port : Parameters_ ℝ) 0)).2.2.2.2.2.1,
    (calibrate_sizes (exact_kernel Real.exp)
      (Node.with_parameters (one_port : Parameters_ ℝ) 0)).2.2.2.2.2.2.1 0 Nat.zero_lt_one⟩

end calibrate_sizes

/-! ## The step range of `update` (C18, C20) -/

section step_range

/-- C18, as stated, fails: with a minimal delay of one step, `update` over the
range from `-1` to `1` passes both assertions (`1 >= 0`, `-1 < 1`, `-1 < 1`) and
runs the steps `-1` and `0`; the logger has received two records. -/
theorem negative_from_runs :
    (update 1 0 (-1) 1 resting_node).map (fun m => m.B_.logger_) =
      some [(-1, -70), (0, -70)] := by
  have h : update 1 0 (-1) 1 resting_node =
      some (update_step 0 0 (update_step 0 (-1) resting_node)) := by
    simp [update, update_loop]
  have hr : resting_node.at_rest := by
    simp [Node.at_rest, resting_node, Node.default, State_.default]
  have hb : resting_node.buffers_empty := by
    simp [Node.buffers_empty, resting_node, Node.default, RingBuffer.clear]
  have hI : resting_node.P_.I_e_ = 0 := rfl
  have hT : (0 : ℚ) < resting_node.P_.Theta_ := by
    norm_num [resting_node, Node.default, Parameters_.default]
  obtain ⟨f1, -⟩ := update_step_frame 0 (-1) resting_node
  obtain ⟨r1, -⟩ := at_rest_step 0 (-1) resting_node hI hT hr hb
  have v1 : (update_step 0 (-1) resting_node).S_.V_m_ = 0 := r1.1
  have v2 : (update_step 0 0 (update_step 0 (-1) resting_node)).S_.V_m_ = 0 := by
    rw [at_rest_step_V_m 0 0 _ (by rw [f1]; exact hI) r1, f1, if_neg (not_le.mpr hT)]
  rw [h, Option.map_some', update_step_logger, update_step_logger, v1, v2, f1]
  norm_num [resting_node, Node.default, Parameters_.default]

/-- C18, amended: `update` fails an assertion at its entry, before any statement
of the loop, exactly for the ranges with `to < 0`, `from >= min_delay` or
`from >= to`: so for every range with `from >= to` and for every range with a
negative `to`.  A range with `0 <= to`, `from < min_delay` and `from < to`, also
one with a negative `from`, passes and is run. -/
theorem update_assertions (min_delay origin from_ to_ : Int) (n : Node α) :
    (update min_delay origin from_ to_ n = none ↔
        to_ < 0 ∨ min_delay ≤ from_ ∨ to_ ≤ from_) ∧
      (to_ ≤ from_ → update min_delay origin from_ to_ n = none) ∧
      (to_ < 0 → update min_delay origin from_ to_ n = none) ∧
      (0 ≤ to_ → from_ < min_delay → from_ < to_ →
        update min_delay origin from_ to_ n =
          some (update_loop origin (to_ - from_).toNat from_ n)) := by
  have key : ∀ a b c : Int, (update c origin a b n = none ↔ b < 0 ∨ c ≤ a ∨ b ≤ a) := by
    intro a b c
    unfold update
    split_ifs with h1 h2
    · simp only [reduceCtorEq, false_iff]
      omega
    · simp only [true_iff]
      omega
    · simp only [true_iff]
      omega
  refine ⟨key from_ to_ min_delay, ?_, ?_, ?_⟩
  · intro h
    exact (key from_ to_ min_delay).mpr (Or.inr (Or.inr h))
  · intro h
    exact (key from_ to_ min_delay).mpr (Or.inl h)
  · intro h1 h2 h3
    unfold update
    rw [if_pos ⟨h1, h2⟩, if_pos h3]

/-- C18 amended, at `resting_node` with a minimal delay of one step: the range
from 1 to 1 and the range from 0 to -1 fail, the range from -1 to 1 is run. -/
theorem update_assertions_witness :
    update 1 0 1 1 resting_node = none ∧ update 1 0 0 (-1) resting_node = none ∧
      update 1 0 (-1) 1 resting_node =
        some (update_loop 0 ((1 : Int) - -1).toNat (-1) resting_node) :=
  ⟨(update_assertions 1 0 1 1 resting_node).2.1 (by decide),
    (update_assertions 1 0 0 (-1) resting_node).2.2.1 (by decide),
    (update_assertions 1 0 (-1) 1 resting_node).2.2.2 (by decide) (by decide) (by decide)⟩

theorem update_loop_add (origin : Int) (a b : Nat) (lag : Int) (n : Node α) :
    update_loop origin (a + b) lag n =
      update_loop origin b (lag + a) (update_loop origin a lag n) := by
  induction a generalizing lag n with
  | zero => simp [update_loop]
  | succ a ih =>
    have e : a + 1 + b = (a + b) + 1 := by omega
    rw [e, update_loop, ih, update_loop]
    congr 1
    push_cast
    ring

/-- The composition of `update` over two adjacent ranges, when the middle of
the range is inside `[0, min_delay)`. -/
theorem update_split (min_delay origin from_ mid to_ : Int) (n : Node α)
    (h1 : from_ < mid) (h2 : mid < to_) (h3 : 0 ≤ mid) (h4 : mid < min_delay) :
    update min_delay origin from_ to_ n =
        some (update_loop origin (to_ - from_).toNat from_ n) ∧
      (update min_delay origin from_ mid n).bind (update min_delay origin mid to_) =
        some (update_loop origin (to_ - from_).toNat from_ n) := by
  have e1 : (to_ - from_).toNat = (mid - from_).toNat + (to_ - mid).toNat := by omega
  have e2 : from_ + (((mid - from_).toNat : Nat) : Int) = mid := by
    rw [Int.toNat_of_nonneg (by omega)]
    ring
  constructor
  · unfold update
    rw [if_pos ⟨by omega, by omega⟩, if_pos (by omega)]
  · unfold update
    rw [if_pos ⟨h3, by omega⟩, if_pos h1, Option.some_bind, if_pos ⟨by omega, h4⟩,
      if_pos h2, e1, update_loop_add, e2]

/-- C20, as stated, fails: with a minimal delay of one step, `update` over the
range from 0 to 2 passes its assertions and returns, while after `update` from 0
to 1 the call from 1 to 2 fails the assertion `from < min_delay`. -/
theorem split_fails_assertion :
    (update 1 0 0 2 resting_node).isSome = true ∧
      (update 1 0 0 1 resting_node).bind (update 1 0 1 2) = none := by
  constructor
  · simp [update]
  · simp [update]

/-- C20, amended: for `from < mid < to` with `0 <= mid < min_delay`, so that
each of the three calls passes its assertions, `update` over `[from, mid)`
followed by `update` over `[mid, to)` with the same origin returns the same
node as `update` over `[from, to)`: the same state, the same buffers and logger
records, the same spike events and spike times. -/
theorem update_compose (min_delay origin from_ mid to_ : Int) (n : Node α)
    (h1 : from_ < mid) (h2 : mid < to_) (h3 : 0 ≤ mid) (h4 : mid < min_delay) :
    ∃ r, update min_delay origin from_ to_ n = some r ∧
      (update min_delay origin from_ mid n).bind (update min_delay origin mid to_) = some r :=
  ⟨_, (update_split min_delay origin from_ mid to_ n h1 h2 h3 h4).1,
    (update_split min_delay origin from_ mid to_ n h1 h2 h3 h4).2⟩

/-- C20 amended, at `driven_node` with a minimal delay of 3 steps: the ranges
from 0 to 1 and from 1 to 3 against the range from 0 to 3. -/
theorem update_compose_witness :
    ∃ r, update 3 0 0 3 driven_node = some r ∧
      (update 3 0 0 1 driven_node).bind (update 3 0 1 3) = some r :=
  update_compose 3 0 0 1 3 driven_node (by decide) (by decide) (by decide) (by decide)

end step_range

end nest
